import Mathlib

/-!
Verification development for the School_WordSearch scraper and term searcher.

The Python modules `web_scraper.py` and `term_searcher.py` are shallowly
embedded below.  Strings are modelled as `List Char` at the core (with
`String` wrappers), Python floats as `Rat`, Python dicts as association
lists, and Python sets as duplicate-free lists.  Library calls whose
behaviour the verified properties do not depend on (the HTTP stack,
BeautifulSoup extraction, `urljoin`, regex skip patterns and the bot
protection heuristic) are abstracted as explicit function parameters; the
`urllib.parse.urlparse` component splitting, which several properties do
depend on, is modelled directly (for ASCII input, which is the domain of
`str.lower` agreement between the model and CPython).
-/

namespace SchoolWordSearch

/-! ## Basic character and list utilities -/

/-- ASCII lowercasing, as CPython's `str.lower` behaves on ASCII text. -/
def lowerChar (c : Char) : Char :=
  if 65 ≤ c.toNat ∧ c.toNat ≤ 90 then Char.ofNat (c.toNat + 32) else c

def lowerL (l : List Char) : List Char := l.map lowerChar

/-- `isPrefixOfB pat l` : does `l` start with `pat`? (Bool version.) -/
def isPrefixOfB : List Char → List Char → Bool
  | [], _ => true
  | _ :: _, [] => false
  | a :: as, b :: bs => a = b && isPrefixOfB as bs

/-- Python's `needle in hay` on strings: substring containment. -/
def containsSub (hay needle : List Char) : Bool :=
  isPrefixOfB needle hay ||
    (match hay with
     | [] => false
     | _ :: rest => containsSub rest needle)

/-- Python's `s.rstrip(c)`: drop every trailing occurrence of `c`. -/
def rstripAll (d : Char) (l : List Char) : List Char :=
  (l.reverse.dropWhile (fun c => c = d)).reverse

/-- Python whitespace for `str.split()` / `str.strip()`. -/
def pySpace (c : Char) : Bool :=
  c = ' ' || c = '\t' || c = '\n' || c = '\x0d' || c = '\x0b' || c = '\x0c'

/-- Python's `s.strip()`. -/
def pyStrip (l : List Char) : List Char :=
  ((l.dropWhile pySpace).reverse.dropWhile pySpace).reverse

/-- Python's `s.split()`: maximal runs of non-whitespace (accumulator form). -/
def pySplitWsAux : List Char → List Char → List (List Char)
  | acc, [] => if acc = [] then [] else [acc.reverse]
  | acc, c :: rest =>
    if pySpace c then
      if acc = [] then pySplitWsAux [] rest
      else acc.reverse :: pySplitWsAux [] rest
    else pySplitWsAux (c :: acc) rest

/-- Python's `s.split()`: maximal runs of non-whitespace. -/
def pySplitWs (l : List Char) : List (List Char) := pySplitWsAux [] l

/-- Python's `' '.join(s.split())`: collapse whitespace runs to single spaces. -/
def collapseWs (l : List Char) : List Char :=
  match pySplitWs l with
  | [] => []
  | w :: ws => w ++ (ws.foldl (fun acc x => acc ++ ' ' :: x) [])

/-- Insert into a duplicate-free list if absent (Python `set.add`). -/
def insertUniq (x : String) (l : List String) : List String :=
  if x ∈ l then l else l ++ [x]

/-! ## Model of `urllib.parse.urlparse`

Faithful to CPython's `urlsplit`/`urlparse` on ASCII input: scheme split
at the first `:` when the preceding characters are scheme characters and
the first is a letter, authority after a leading `//` up to the first of
`/ ? #`, then fragment at the first `#`, query at the first `?`, and the
`;params` split of the last path segment done by `urlparse` only when the
(lowercased) scheme is in `uses_params`.  -/

def schemeChar (c : Char) : Bool :=
  c.isAlpha || c.isDigit || c = '+' || c = '-' || c = '.'

def splitSchemeAux : List Char → List Char → Option (List Char × List Char)
  | _, [] => none
  | acc, c :: rest =>
    if c = ':' then some (acc.reverse, rest)
    else if schemeChar c then splitSchemeAux (c :: acc) rest
    else none

/-- Split off the URL scheme; returns (scheme lowercased, rest). -/
def splitScheme (l : List Char) : List Char × List Char :=
  match l with
  | [] => ([], [])
  | c :: _ =>
    if c.isAlpha then
      match splitSchemeAux [] l with
      | some (s, rest) => if s = [] then ([], l) else (lowerL s, rest)
      | none => ([], l)
    else ([], l)

def netlocDelim (c : Char) : Bool := c = '/' || c = '?' || c = '#'

/-- Split off the authority after a leading `//`; returns (netloc, rest). -/
def splitNetloc (l : List Char) : List Char × List Char :=
  match l with
  | '/' :: '/' :: rest =>
    (rest.takeWhile (fun c => !netlocDelim c),
     rest.dropWhile (fun c => !netlocDelim c))
  | _ => ([], l)

/-- Split at the first occurrence of `d`; `(l, [])` when `d` is absent. -/
def splitFirst (d : Char) : List Char → List Char × List Char
  | [] => ([], [])
  | c :: rest =>
    if c = d then ([], rest)
    else
      let p := splitFirst d rest
      (c :: p.1, p.2)

/-- The path segment after the last `/` (the whole path if no `/`). -/
def afterLastSlash (p : List Char) : List Char :=
  (p.reverse.takeWhile (fun c => ¬ c = '/')).reverse

/-- CPython `_splitparams`, called by `urlparse` when `;` occurs in the path. -/
def splitParamsPy (p : List Char) : List Char × List Char :=
  if p.contains '/' then
    let suf := afterLastSlash p
    if suf.contains ';' then
      let pre := p.take (p.length - suf.length)
      let q := splitFirst ';' suf
      (pre ++ q.1, q.2)
    else (p, [])
  else
    let q := splitFirst ';' p
    (q.1, q.2)

structure UrlParts where
  scheme : List Char
  netloc : List Char
  path : List Char
  params : List Char
  query : List Char
  fragment : List Char
  deriving Repr, DecidableEq

/-- CPython's `uses_params` list (`urllib/parse.py`): the schemes for
which `urlparse` performs the `;params` split. -/
def usesParams : List (List Char) :=
  ["".data, "ftp".data, "hdl".data, "prospero".data, "http".data,
   "imap".data, "https".data, "shttp".data, "rtsp".data, "rtsps".data,
   "rtspu".data, "sip".data, "sips".data, "mms".data, "sftp".data,
   "tel".data]

/-- Model of `urllib.parse.urlparse` (component extraction): the
`;params` split happens only for `scheme in uses_params`. -/
def parseUrlL (l : List Char) : UrlParts :=
  let s := splitScheme l
  let n := splitNetloc s.2
  let f := splitFirst '#' n.2
  let q := splitFirst '?' f.1
  let pp := if usesParams.contains s.1 && q.1.contains ';'
            then splitParamsPy q.1 else (q.1, [])
  ⟨s.1, n.1, pp.1, pp.2, q.2, f.2⟩

/-- Whether the URL has an authority component: CPython's
`url[:2] == '//'` check after removing the scheme. -/
def hasAuthorityL (l : List Char) : Bool :=
  isPrefixOfB ['/', '/'] (splitScheme l).2

def parseUrl (s : String) : UrlParts := parseUrlL s.data

/-- `urlparse(u).netloc` as a `String`. -/
def netlocOf (s : String) : String := ⟨(parseUrl s).netloc⟩

/-! ## `WebScraper.normalize_url_for_cache` (web_scraper.py lines 249-286)

The `try`/`except` in the source is unreachable in the model: the modelled
`urlparse` and string formatting are total. -/

/-- `path.rstrip('/') if path != '/' else '/'`. -/
def pathNorm (p : List Char) : List Char :=
  if p = "/".data then "/".data else rstripAll '/' p

def normalizeUrlForCacheL (l : List Char) : List Char :=
  if l = [] then []
  else
    let p := parseUrlL l
    let scheme0 := if p.scheme = [] then "https".data else lowerL p.scheme
    let scheme := if scheme0 = "http".data ∨ scheme0 = "https".data
                  then scheme0 else "https".data
    let netloc := lowerL p.netloc
    scheme ++ "://".data ++ netloc ++ pathNorm p.path ++
      (if p.query ≠ [] then '?' :: p.query else [])

def normalize_url_for_cache (s : String) : String := ⟨normalizeUrlForCacheL s.data⟩

/-! ## `URLCache` (web_scraper.py lines 50-116)

The cache dict is an association list in key-insertion order; the
`schools` set is a duplicate-free list; `scraped_at` timestamps are
real-time data outside the model.  `_normalizer` is `none` on a fresh
cache (the fallback normalization of `normalize_key` then applies) and is
set to a scraper's `normalize_url_for_cache` by `set_normalizer`. -/

structure Page where
  url : String
  text : String
  links : List String
  status_code : Nat
  content_length : Nat
  deriving Repr, DecidableEq

structure CacheEntry where
  pages : List Page
  schools : List String
  deriving Repr, DecidableEq

structure URLCache where
  cache : List (String × CacheEntry)
  normalizer : Option (String → String)

def URLCache.empty : URLCache := ⟨[], none⟩

def URLCache.set_normalizer (c : URLCache) (f : String → String) : URLCache :=
  { c with normalizer := some f }

/-- Fallback branch of `URLCache.normalize_key`: the `try` body is total
in the model, so the `except` branch is unreachable. -/
def urlCacheFallbackKey (url : String) : String :=
  let p := parseUrlL (lowerL (rstripAll '/' url.data))
  ⟨p.scheme ++ "://".data ++ p.netloc ++ rstripAll '/' p.path⟩

def URLCache.normalize_key (c : URLCache) (url : String) : String :=
  match c.normalizer with
  | some f => f url
  | none => urlCacheFallbackKey url

def lookupA (key : String) : List (String × CacheEntry) → Option CacheEntry
  | [] => none
  | (k, e) :: rest => if k = key then some e else lookupA key rest

def URLCache.get (c : URLCache) (url : String) : Option (List Page) :=
  let key := c.normalize_key url
  match lookupA key c.cache with
  | some e => some e.pages
  | none => none

/-- Map the entry at `key` through `f` (Python in-place dict update). -/
def updateA (key : String) (f : CacheEntry → CacheEntry) :
    List (String × CacheEntry) → List (String × CacheEntry)
  | [] => []
  | (k, e) :: rest =>
    if k = key then (k, f e) :: rest else (k, e) :: updateA key f rest

/-- Python truthiness of an `Optional[str]`: `None` and `''` are falsy. -/
def truthyStr : Option String → Bool
  | none => false
  | some s => s ≠ ""

def URLCache.set (c : URLCache) (url : String) (pages : List Page)
    (school_id : Option String := none) : URLCache :=
  let key := c.normalize_key url
  let cache1 :=
    if (lookupA key c.cache).isNone
    then c.cache ++ [(key, ⟨pages, []⟩)]
    else c.cache
  let cache2 :=
    if truthyStr school_id
    then updateA key (fun e => { e with schools := insertUniq (school_id.getD "") e.schools }) cache1
    else cache1
  { c with cache := cache2 }

def URLCache.get_schools_for_url (c : URLCache) (url : String) : List String :=
  match lookupA (c.normalize_key url) c.cache with
  | some e => e.schools
  | none => []

/-! ## `TermSearcher` (term_searcher.py)

`re.compile(re.escape(term), re.IGNORECASE)` is a case-insensitive
literal matcher; `finditer` is modelled by a left-to-right non-overlapping
scan that, like CPython, advances one character after a zero-width match
(so the empty pattern matches at every position, including the end). -/

structure TermSearcher where
  search_terms : List String
  context_length : Nat
  deriving Repr

/-- One `finditer` scan step, with structural fuel (any fuel above the
remaining length behaves identically; `scanMatches` supplies it). -/
def scanMatchesF (pat : List Char) : Nat → List Char → Nat → List (Nat × Nat)
  | 0, _, _ => []
  | _ + 1, [], i => if pat = [] then [(i, i)] else []
  | fuel + 1, c :: rest, i =>
    if isPrefixOfB pat (c :: rest) then
      let step := max pat.length 1
      (i, i + pat.length) :: scanMatchesF pat fuel ((c :: rest).drop step) (i + step)
    else
      scanMatchesF pat fuel rest (i + 1)

/-- The `(start, end)` spans of the case-insensitive non-overlapping
matches of `pat` in `l` starting at absolute offset `i` (the `finditer`
loop; after a zero-width match the scan advances one character). -/
def scanMatches (pat : List Char) (l : List Char) (i : Nat) : List (Nat × Nat) :=
  scanMatchesF pat (l.length + 1) l i

structure Occurrence where
  term : String
  start : Nat
  stop : Nat
  context : String
  matched_text : String
  deriving Repr, DecidableEq

/-- Slice `l[a:b]` of a character list. -/
def sliceL (l : List Char) (a b : Nat) : List Char := (l.drop a).take (b - a)

/-- `TermSearcher.find_term_occurrences` (term_searcher.py lines 32-69).
`self.patterns` has exactly the members of `search_terms` as keys. -/
def find_term_occurrences (ts : TermSearcher) (text term : String) :
    List Occurrence :=
  if term ∈ ts.search_terms then
    (scanMatches (lowerL term.data) (lowerL text.data) 0).map (fun m =>
      let cstart := m.1 - ts.context_length / 2
      let cend := min text.data.length (m.2 + ts.context_length / 2)
      let context := collapseWs (pyStrip (sliceL text.data cstart cend))
      { term := term, start := m.1, stop := m.2,
        context := ⟨context⟩, matched_text := ⟨sliceL text.data m.1 m.2⟩ })
  else []

structure SearchResult where
  url : String
  terms_found : List String
  occurrences : List Occurrence
  total_matches : Nat
  source : Option String
  deriving Repr, DecidableEq

/-- The body of the `for term in self.search_terms` loop of
`search_text`: accumulates `(found_terms, occurrences, total_matches)`. -/
def searchTextStep (ts : TermSearcher) (text : String)
    (acc : List String × List Occurrence × Nat) (term : String) :
    List String × List Occurrence × Nat :=
  let ms := find_term_occurrences ts text term
  if ms ≠ [] then
    (insertUniq term acc.1, acc.2.1 ++ ms, acc.2.2 + ms.length)
  else acc

/-- `TermSearcher.search_text` (term_searcher.py lines 71-101).  The
`found_terms` set is a duplicate-free list; the result carries no
`source` key yet (`none`). -/
def search_text (ts : TermSearcher) (text page_url : String) : SearchResult :=
  let res := ts.search_terms.foldl (searchTextStep ts text) ([], [], 0)
  { url := page_url, terms_found := res.1, occurrences := res.2.1,
    total_matches := res.2.2, source := none }

/-- A page dict as consumed by the term searcher: `page.get('url', '')`
and `page.get('text', '')` defaults are folded into the fields; the
optional `source` key is an `Option`. -/
structure SPage where
  url : String
  text : String
  source : Option String
  deriving Repr, DecidableEq

/-- `TermSearcher.search_pages` (term_searcher.py lines 103-132): skip
pages with empty text, search the rest, keep results with a non-empty
`terms_found`, in page order. -/
def search_pages (ts : TermSearcher) : List SPage → List SearchResult
  | [] => []
  | page :: rest =>
    if page.text = "" then search_pages ts rest
    else
      let r := { search_text ts page.text page.url with
                   source := some (page.source.getD "unknown") }
      if r.terms_found ≠ [] then r :: search_pages ts rest
      else search_pages ts rest

structure Snippet where
  term : String
  context : String
  url : String
  source : String
  deriving Repr, DecidableEq

/-- A value of the aggregated-results dict. -/
inductive AggValue where
  | strs (l : List String)
  | num (n : Nat)
  | snips (l : List Snippet)
  deriving Repr, DecidableEq

/-- Internal accumulator mirroring the mutable `aggregated` dict. -/
structure AggAcc where
  terms_found : List String
  page_urls : List String
  context_snippets : List Snippet
  total_occurrences : Nat
  pages_with_terms : Nat
  school_terms_found : List String
  school_page_urls : List String
  school_total_occurrences : Nat
  school_pages_with_terms : Nat
  district_terms_found : List String
  district_page_urls : List String
  district_total_occurrences : Nat
  district_pages_with_terms : Nat
  deriving Repr, DecidableEq

/-- Python `sorted` on a duplicate-free list of strings (any correct
sort agrees with CPython's on distinct elements). -/
def sortStrings (l : List String) : List String :=
  List.insertionSort (fun a b => a ≤ b) l

def aggStep (acc : AggAcc) (r : SearchResult) : AggAcc :=
  let source := r.source.getD "unknown"
  let acc := { acc with
    terms_found := r.terms_found.foldl (fun s t => insertUniq t s) acc.terms_found
    page_urls := acc.page_urls ++ [r.url]
    total_occurrences := acc.total_occurrences + r.total_matches }
  let acc :=
    if source = "school" then
      { acc with
        school_terms_found :=
          r.terms_found.foldl (fun s t => insertUniq t s) acc.school_terms_found
        school_page_urls := acc.school_page_urls ++ [r.url]
        school_total_occurrences := acc.school_total_occurrences + r.total_matches
        school_pages_with_terms := acc.school_pages_with_terms + 1 }
    else if source = "district" then
      { acc with
        district_terms_found :=
          r.terms_found.foldl (fun s t => insertUniq t s) acc.district_terms_found
        district_page_urls := acc.district_page_urls ++ [r.url]
        district_total_occurrences := acc.district_total_occurrences + r.total_matches
        district_pages_with_terms := acc.district_pages_with_terms + 1 }
    else acc
  { acc with
    context_snippets := acc.context_snippets ++
      r.occurrences.map (fun o => ⟨o.term, o.context, r.url, source⟩) }

/-- Emit the aggregated dict in its key-insertion order. -/
def aggToDict (a : AggAcc) : List (String × AggValue) :=
  [("terms_found", .strs a.terms_found),
   ("page_urls", .strs a.page_urls),
   ("context_snippets", .snips a.context_snippets),
   ("total_occurrences", .num a.total_occurrences),
   ("pages_with_terms", .num a.pages_with_terms),
   ("school_terms_found", .strs a.school_terms_found),
   ("school_page_urls", .strs a.school_page_urls),
   ("school_total_occurrences", .num a.school_total_occurrences),
   ("school_pages_with_terms", .num a.school_pages_with_terms),
   ("district_terms_found", .strs a.district_terms_found),
   ("district_page_urls", .strs a.district_page_urls),
   ("district_total_occurrences", .num a.district_total_occurrences),
   ("district_pages_with_terms", .num a.district_pages_with_terms)]

/-- The final value of the `aggregated` dict: the fold over the results
starting from the initial dict (whose `pages_with_terms` is
`len(search_results)`), with the three term sets converted to sorted
lists at the end. -/
def aggFinal (search_results : List SearchResult) : AggAcc :=
  let init : AggAcc :=
    ⟨[], [], [], 0, search_results.length, [], [], 0, 0, [], [], 0, 0⟩
  let fin := search_results.foldl aggStep init
  { fin with
    terms_found := sortStrings fin.terms_found
    school_terms_found := sortStrings fin.school_terms_found
    district_terms_found := sortStrings fin.district_terms_found }

/-- `TermSearcher.aggregate_results` (term_searcher.py lines 134-194). -/
def aggregate_results (search_results : List SearchResult) :
    List (String × AggValue) :=
  aggToDict (aggFinal search_results)

/-- Python `x or default` for an optional list (empty list is falsy). -/
def pyOrList (x : Option (List String)) (d : List String) : List String :=
  match x with
  | some l => if l = [] then d else l
  | none => d

/-- `d[k] = v if k not in d` (appends at the end of the dict). -/
def ensureKey (k : String) (v : AggValue) (d : List (String × AggValue)) :
    List (String × AggValue) :=
  if (d.lookup k).isNone then d ++ [(k, v)] else d

/-- `search_school_content` (term_searcher.py lines 197-229), with the
`SEARCH_TERMS` and `context_snippet_length` configuration values as
explicit parameters. -/
def search_school_content (cfgTerms : List String) (cfgCtx : Nat)
    (pages : List SPage) (search_terms : Option (List String)) :
    List (String × AggValue) :=
  let searcher : TermSearcher := ⟨pyOrList search_terms cfgTerms, cfgCtx⟩
  let results := search_pages searcher pages
  let aggregated := aggregate_results results
  ensureKey "district_pages_with_terms" (.num 0) <|
  ensureKey "district_total_occurrences" (.num 0) <|
  ensureKey "district_page_urls" (.strs []) <|
  ensureKey "district_terms_found" (.strs []) <|
  ensureKey "school_pages_with_terms" (.num 0) <|
  ensureKey "school_total_occurrences" (.num 0) <|
  ensureKey "school_page_urls" (.strs []) <|
  ensureKey "school_terms_found" (.strs []) <| aggregated

/-! ## `WebScraper` (web_scraper.py)

The HTTP layer is an oracle `net useCloudscraper allowRedirects verify url`
answering each `session.get`/`cloudscraper_session.get` call site;
`urljoin`, `extract_text`, `extract_links` (BeautifulSoup) and
`is_bot_protection_page` are abstract function parameters.  A `requests`
response is its status code, optional `Location` header, final `.url`
and body text; an exception is its kind plus the data the handlers
inspect (`str(e)` and `e.response`). -/

structure Response where
  status : Nat
  location : Option String
  url : String
  text : String
  deriving Repr, DecidableEq

inductive NetErr where
  | ssl (msg : String)
  | http (resp : Option (String × Nat)) (msg : String)
  | conn (msg : String)
  | timeout (msg : String)
  | tooManyRedirects (msg : String)
  | invalidUrl
  | missingSchema
  | invalidSchema
  | chunked (msg : String)
  | contentDecoding (msg : String)
  | unicode
  | reqOther (msg : String)
  | other (msg : String)
  deriving Repr, DecidableEq

inductive NetResult where
  | resp (r : Response)
  | err (e : NetErr)
  deriving Repr, DecidableEq

structure ScrapeEnv where
  net : Bool → Bool → Bool → String → NetResult
  urljoin : String → String → String
  extract_text : String → String
  extract_links : String → String → Option String → List String
  is_bot_protection_page : String → Bool

structure ScraperConfig where
  verify_ssl : Bool
  ssl_fallback : Bool
  ssl_retry_unverified : Bool
  hasCloudscraper : Bool
  delay : Rat
  min_delay : Rat
  max_delay : Rat
  max_depth : Nat
  max_pages : Nat
  quick_content_check : Bool
  require_relevant_content : Bool
  min_content_length : Nat
  should_skip_url : String → Bool
  relevantTerms : List String

def startsWithS (s p : String) : Bool := isPrefixOfB p.data s.data

/-- Python `needle in hay` for `String`s. -/
def inStr (needle hay : String) : Bool := containsSub hay.data needle.data

/-- `WebScraper.is_valid_url` (web_scraper.py lines 218-240); the modelled
`urlparse` is total, so the `except` branch is unreachable. -/
def is_valid_url (url : String) : Bool :=
  if url = "" || startsWithS url "mailto:" || startsWithS url "tel:" then false
  else if inStr "@" url &&
          !(startsWithS url "http://" || startsWithS url "https://" ||
            startsWithS url "mailto:") then false
  else
    let p := parseUrl url
    if p.scheme = [] || p.netloc = [] then false
    else if !(p.scheme = "http".data || p.scheme = "https".data) then false
    else if p.netloc.contains '@' && !(isPrefixOfB "[".data p.netloc) then false
    else true

/-- The `is_external_redirect` closure inside `scrape_page`
(web_scraper.py lines 595-603): falsy `base_domain` (absent or empty)
never flags, otherwise compare `urlparse(check_url).netloc`. -/
def is_external_redirect (base_domain : Option String) (check_url : String) : Bool :=
  match base_domain with
  | none => false
  | some b => if b = "" then false else netlocOf check_url ≠ b

/-- `'handshake' in str(e).lower()`. -/
def handshakeIn (msg : String) : Bool :=
  containsSub (lowerL msg.data) "handshake".data

/-- `response.raise_for_status()`: an `HTTPError` for 4xx/5xx codes. -/
def raiseForStatus (r : Response) : Option NetErr :=
  if 400 ≤ r.status then some (.http (some (r.url, r.status)) "") else none

def is3xx (n : Nat) : Bool :=
  n = 301 || n = 302 || n = 303 || n = 307 || n = 308

inductive FetchOut where
  | gotResp (r : Response)
  | abort
  | failed (e : NetErr)
  deriving Repr, DecidableEq

/-- The repeated fetch pattern of `scrape_page`: GET without redirects,
resolve and domain-check a 3xx `Location` manually, follow it with
redirects allowed, `raise_for_status`, then domain-check the final URL.
`v1`/`v2` are the effective `verify` values of the two GETs. -/
def redirectFetch (env : ScrapeEnv) (bd : Option String) (useCs v1 v2 : Bool)
    (url : String) : FetchOut :=
  match env.net useCs false v1 url with
  | .err e => .failed e
  | .resp r =>
    let afterR : FetchOut :=
      if is3xx r.status then
        let loc := r.location.getD ""
        if loc ≠ "" then
          let ru := env.urljoin url loc
          if is_external_redirect bd ru then .abort
          else
            match env.net useCs true v2 ru with
            | .err e => .failed e
            | .resp r2 => .gotResp r2
        else .gotResp r
      else .gotResp r
    match afterR with
    | .gotResp rr =>
      match raiseForStatus rr with
      | some e => .failed e
      | none => if is_external_redirect bd rr.url then .abort else .gotResp rr
    | x => x

inductive CsOut where
  | retNone
  | got (r : Response)
  | fallThrough
  deriving Repr, DecidableEq

/-- The `use_cloudscraper_first` block of `scrape_page` (web_scraper.py
lines 606-695): on SSL errors from an external domain return `None`; on
a handshake failure with `ssl_fallback` retry unverified; any other
failure falls through to the regular session. -/
def csFirstBlock (env : ScrapeEnv) (cfg : ScraperConfig) (bd : Option String)
    (url : String) : CsOut :=
  match redirectFetch env bd true cfg.verify_ssl cfg.verify_ssl url with
  | .gotResp r => .got r
  | .abort => .retNone
  | .failed e =>
    match e with
    | .ssl msg =>
      if truthyStr bd && !(inStr (bd.getD "") msg) then .retNone
      else if cfg.ssl_fallback && handshakeIn msg then
        match redirectFetch env bd true false false url with
        | .gotResp r => .got r
        | .abort => .retNone
        | .failed _ => .fallThrough
      else .fallThrough
    | .http respInfo _ =>
      match respInfo with
      | some (u, _) =>
        if truthyStr bd then
          (if netlocOf u ≠ bd.getD "" then .retNone else .fallThrough)
        else .fallThrough
      | none => .fallThrough
    | _ => .fallThrough

inductive RegOut where
  | retNone
  | got (r : Response)
  | raised (e : NetErr)
  deriving Repr, DecidableEq

/-- The regular-session block of `scrape_page` (web_scraper.py lines
697-775).  The first GET passes no `verify`, so the session default
`True` applies; the redirect GET passes `verify=self.verify_ssl`.  The
bare `raise` after a failed SSL fallback re-raises the fallback error;
unhandled kinds propagate to the outer handlers. -/
def regularBlock (env : ScrapeEnv) (cfg : ScraperConfig) (bd : Option String)
    (url : String) : RegOut :=
  match redirectFetch env bd false true cfg.verify_ssl url with
  | .gotResp r => .got r
  | .abort => .retNone
  | .failed e =>
    match e with
    | .ssl msg =>
      if truthyStr bd && !(inStr (bd.getD "") msg) then .retNone
      else if cfg.ssl_fallback && handshakeIn msg then
        match redirectFetch env bd false false false url with
        | .gotResp r => .got r
        | .abort => .retNone
        | .failed e2 => .raised e2
      else .raised (.ssl msg)
    | .http respInfo m =>
      match respInfo with
      | some (u, _) =>
        if truthyStr bd then
          (if netlocOf u ≠ bd.getD "" then .retNone
           else .raised (.http respInfo m))
        else .raised (.http respInfo m)
      | none => .raised (.http respInfo m)
    | e2 => .raised e2

inductive BotOut where
  | retNone
  | cont (resp : Response) (finalUrl : String) (usedCs : Bool)
  deriving Repr, DecidableEq

/-- Error handling of the bot-protection retry (web_scraper.py lines
810-865): `resp0` is the current value of the `response` variable when
the exception is handled (the retry GET reassigns it on success even if
`raise_for_status` then raises); on the keep-going paths `final_url` is
left at its already-checked value. -/
def botErrCase (env : ScrapeEnv) (cfg : ScraperConfig) (bd : Option String)
    (url : String) (e : NetErr) (resp0 : Response) (origFinal : String) : BotOut :=
  match e with
  | .ssl msg =>
    if truthyStr bd && !(inStr (bd.getD "") msg) then .retNone
    else if cfg.ssl_fallback && handshakeIn msg then
      match env.net true true false url with
      | .resp r3 =>
        match raiseForStatus r3 with
        | none =>
          if is_external_redirect bd r3.url then .retNone
          else .cont r3 r3.url true
        | some _ => .cont r3 origFinal false
      | .err _ => .cont resp0 origFinal false
    else .cont resp0 origFinal false
  | .http respInfo _ =>
    match respInfo with
    | some (u, _) =>
      if truthyStr bd && netlocOf u ≠ bd.getD "" then .retNone
      else .cont resp0 origFinal false
    | none => .cont resp0 origFinal false
  | _ => .cont resp0 origFinal false

/-- The bot-protection retry with cloudscraper (web_scraper.py lines
803-865): a plain redirect-following GET, `raise_for_status`, and a
domain check before adopting the retry's final URL. -/
def botRetry (env : ScrapeEnv) (cfg : ScraperConfig) (bd : Option String)
    (url : String) (orig : Response) (origFinal : String) : BotOut :=
  match env.net true true cfg.verify_ssl url with
  | .resp r2 =>
    match raiseForStatus r2 with
    | none =>
      if is_external_redirect bd r2.url then .retNone
      else .cont r2 r2.url true
    | some e => botErrCase env cfg bd url e r2 origFinal
  | .err e => botErrCase env cfg bd url e orig origFinal

structure ScrapeState where
  visited : List String
  pages : List Page
  trace : List (String × Bool)
  deriving Repr, DecidableEq

/-- Page construction and bookkeeping shared by the success paths of
`scrape_page` (web_scraper.py lines 867-941 and the SSL last-resort
copy at lines 957-990). -/
def buildPage (env : ScrapeEnv) (bd : Option String) (url : String)
    (r : Response) (finalUrl : String) (st : ScrapeState) (add : Bool) :
    Option Page × ScrapeState :=
  let text_content := env.extract_text r.text
  let links := env.extract_links r.text finalUrl bd
  let page : Page := ⟨finalUrl, text_content, links, r.status, text_content.length⟩
  let visited1 := insertUniq url st.visited
  let visited2 := if finalUrl ≠ url then insertUniq finalUrl visited1 else visited1
  (some page,
   { st with visited := visited2,
             pages := if add then st.pages ++ [page] else st.pages })

/-- The outer exception handlers of `scrape_page` (web_scraper.py lines
943-1071): every kind returns `None` except an SSL handshake error with
`ssl_retry_with_unverified`, which makes one last unverified
redirect-following GET and builds a page after a final domain check. -/
def outerHandler (env : ScrapeEnv) (cfg : ScraperConfig) (bd : Option String)
    (url : String) (st : ScrapeState) (add : Bool) (e : NetErr) :
    Option Page × ScrapeState :=
  match e with
  | .ssl msg =>
    if truthyStr bd && !(inStr (bd.getD "") msg) then (none, st)
    else if cfg.ssl_retry_unverified && handshakeIn msg then
      match env.net false true false url with
      | .resp r =>
        match raiseForStatus r with
        | some _ => (none, st)
        | none =>
          if truthyStr bd && is_external_redirect bd r.url then (none, st)
          else buildPage env bd url r r.url st add
      | .err _ => (none, st)
    else (none, st)
  | _ => (none, st)

/-- Post-response phase of `scrape_page`: the double domain check after
all redirects, the bot-protection check and retry, then page
construction (web_scraper.py lines 777-941). -/
def afterResponse (env : ScrapeEnv) (cfg : ScraperConfig) (bd : Option String)
    (url : String) (st : ScrapeState) (add : Bool) (r : Response)
    (finalUrl : String) (usedCs : Bool) : Option Page × ScrapeState :=
  if truthyStr bd && is_external_redirect bd finalUrl then (none, st)
  else
    let isBot := env.is_bot_protection_page r.text
    if isBot && !usedCs then
      if cfg.hasCloudscraper then
        match botRetry env cfg bd url r finalUrl with
        | .retNone => (none, st)
        | .cont r2 final2 _ => buildPage env bd url r2 final2 st add
      else buildPage env bd url r finalUrl st add
    else buildPage env bd url r finalUrl st add

/-- `scrape_page` without the validity/visited guards. -/
def scrapePageCore (env : ScrapeEnv) (cfg : ScraperConfig) (url : String)
    (use_cloudscraper_first : Bool) (add : Bool) (bd : Option String)
    (st : ScrapeState) : Option Page × ScrapeState :=
  match (if use_cloudscraper_first && cfg.hasCloudscraper
         then csFirstBlock env cfg bd url else .fallThrough) with
  | .retNone => (none, st)
  | .got r => afterResponse env cfg bd url st add r r.url true
  | .fallThrough =>
    match regularBlock env cfg bd url with
    | .retNone => (none, st)
    | .got r => afterResponse env cfg bd url st add r r.url false
    | .raised e => outerHandler env cfg bd url st add e

/-- `WebScraper.scrape_page` (web_scraper.py lines 574-1071).  The state
also records a trace entry for every URL on which a request is actually
issued (both guards passed), tagged with whether a page came back. -/
def scrape_page (env : ScrapeEnv) (cfg : ScraperConfig) (url : String)
    (use_cloudscraper_first : Bool) (add_to_scraped_pages : Bool)
    (base_domain : Option String) (st : ScrapeState) :
    Option Page × ScrapeState :=
  if ¬ is_valid_url url then (none, st)
  else if url ∈ st.visited then (none, st)
  else
    let out := scrapePageCore env cfg url use_cloudscraper_first
                 add_to_scraped_pages base_domain st
    (out.1, { out.2 with trace := out.2.trace ++ [(url, out.1.isSome)] })

/-! ## `WebScraper.scrape_site` (web_scraper.py lines 1073-1209) -/

structure DelayState where
  current_delay : Rat
  min_delay : Rat
  max_delay : Rat
  consecutive_successes : Nat
  consecutive_errors : Nat
  deriving Repr, DecidableEq

/-- Adaptive-delay bookkeeping after a successful fetch (web_scraper.py
lines 1139-1146). -/
def onFetchSuccess (d : DelayState) : DelayState :=
  let d := { d with consecutive_successes := d.consecutive_successes + 1,
                    consecutive_errors := 0 }
  if d.consecutive_successes > 5 ∧ d.current_delay > d.min_delay then
    { d with current_delay := max d.min_delay (d.current_delay * (9/10)),
             consecutive_successes := 0 }
  else d

/-- Adaptive-delay bookkeeping after a failed fetch (web_scraper.py
lines 1192-1199). -/
def onFetchFailure (d : DelayState) : DelayState :=
  let d := { d with consecutive_errors := d.consecutive_errors + 1,
                    consecutive_successes := 0 }
  if d.consecutive_errors > 2 then
    { d with current_delay := min d.max_delay (d.current_delay * (3/2)) }
  else d

/-- `WebScraper.has_relevant_content` (web_scraper.py lines 316-337). -/
def has_relevant_content (terms : List String) (text : String) : Bool :=
  if text = "" || text.length < 50 then false
  else terms.any (fun t => containsSub (lowerL text.data) (lowerL t.data))

/-- The link-enqueueing loop of `scrape_site` (web_scraper.py lines
1178-1190): unvisited links are appended unless they match a skip
pattern. -/
def enqueueLinks (skip : String → Bool) (visited : List String)
    (q : List (String × Nat)) (links : List String) (d : Nat) :
    List (String × Nat) :=
  links.foldl
    (fun q link =>
      if link ∈ visited then q
      else if skip link then q
      else q ++ [(link, d)])
    q

structure CrawlState where
  s : ScrapeState
  queue : List (String × Nat)
  delays : DelayState
  sleeps : List Rat
  deriving Repr, DecidableEq

/-- One iteration of the `scrape_site` crawl loop on the popped
`(url, depth)` entry (web_scraper.py lines 1110-1200); `sleeps` records
each `time.sleep(self.current_delay)`. -/
def crawlStep (env : ScrapeEnv) (cfg : ScraperConfig) (bd : String)
    (maxDepth : Nat) (cs : CrawlState) (url : String) (depth : Nat) :
    CrawlState :=
  if url ∈ cs.s.visited ∨ depth > maxDepth then cs
  else
    let should_skip_content := cfg.should_skip_url url && decide (depth > 0)
    let ucf := decide (depth = 0) && cfg.hasCloudscraper
    if netlocOf url ≠ bd then cs
    else
      let r := scrape_page env cfg url ucf (! should_skip_content) (some bd) cs.s
      match r.1 with
      | some pd =>
        let delays := onFetchSuccess cs.delays
        let sleeps := if delays.current_delay > 0
                      then cs.sleeps ++ [delays.current_delay] else cs.sleeps
        let hasRel := has_relevant_content cfg.relevantTerms pd.text
        let follow :=
          if ¬ should_skip_content then
            if cfg.quick_content_check then
              if pd.text.length < cfg.min_content_length && ¬ hasRel then false
              else if cfg.require_relevant_content && ¬ hasRel then false
              else true
            else true
          else true
        let queue := if decide (depth < maxDepth) && follow
                     then enqueueLinks cfg.should_skip_url r.2.visited cs.queue
                            pd.links (depth + 1)
                     else cs.queue
        ⟨r.2, queue, delays, sleeps⟩
      | none => ⟨r.2, cs.queue, onFetchFailure cs.delays, cs.sleeps⟩

/-- The `while url_queue and len(scraped_pages) < max_pages` loop, with
explicit fuel (the verified properties hold for every fuel). -/
def crawlLoop (env : ScrapeEnv) (cfg : ScraperConfig) (bd : String)
    (maxDepth maxPages : Nat) : CrawlState → Nat → CrawlState
  | cs, 0 => cs
  | cs, fuel + 1 =>
    match cs.queue with
    | [] => cs
    | (url, depth) :: rest =>
      if cs.s.pages.length < maxPages then
        crawlLoop env cfg bd maxDepth maxPages
          (crawlStep env cfg bd maxDepth { cs with queue := rest } url depth) fuel
      else cs

/-- Python `x or default` for an optional numeric argument (0 is falsy). -/
def pyOrNat (x : Option Nat) (d : Nat) : Nat :=
  match x with
  | some n => if n = 0 then d else n
  | none => d

/-- `WebScraper.scrape_site` (web_scraper.py lines 1073-1209).  Within
one call `visited_urls` and `scraped_pages` start cleared and the delay
state starts from the configured values. -/
def scrape_site (env : ScrapeEnv) (cfg : ScraperConfig) (base_url : String)
    (max_depth max_pages : Option Nat) (fuel : Nat) : List Page × CrawlState :=
  let emptyCs : CrawlState :=
    ⟨⟨[], [], []⟩, [], ⟨cfg.delay, cfg.min_delay, cfg.max_delay, 0, 0⟩, []⟩
  if ¬ is_valid_url base_url then ([], emptyCs)
  else
    let maxDepth := pyOrNat max_depth cfg.max_depth
    let maxPages := pyOrNat max_pages cfg.max_pages
    let bd := netlocOf base_url
    let cs0 : CrawlState := { emptyCs with queue := [(base_url, 0)] }
    let fin := crawlLoop env cfg bd maxDepth maxPages cs0 fuel
    (fin.s.pages, fin)

/-! ## Helper lemmas -/

theorem insertUniq_ne_nil (x : String) (l : List String) : insertUniq x l ≠ [] := by
  unfold insertUniq
  split
  next h => intro hnil; rw [hnil] at h; exact absurd h (List.not_mem_nil x)
  next => simp

theorem mem_insertUniq_self (x : String) (l : List String) : x ∈ insertUniq x l := by
  unfold insertUniq; split <;> simp_all

theorem mem_insertUniq_of_mem (x y : String) (l : List String) (h : y ∈ l) :
    y ∈ insertUniq x l := by
  unfold insertUniq; split <;> simp_all

theorem lookupA_updateA_self (key : String) (f : CacheEntry → CacheEntry)
    (l : List (String × CacheEntry)) :
    lookupA key (updateA key f l) = (lookupA key l).map f := by
  induction l with
  | nil => simp [lookupA, updateA]
  | cons kv rest ih =>
    obtain ⟨k, e⟩ := kv
    by_cases h : k = key <;> simp [lookupA, updateA, h, ih]

/-- C10: on a fresh `URLCache`, `get` after `set` returns exactly the stored
pages for every URL with the same canonical key and `None` for every URL
with a different one. -/
theorem C10_urlcache_get_after_set (url url2 : String) (pages : List Page)
    (sid : Option String) :
    (URLCache.empty.set url pages sid).get url2 =
      (if URLCache.empty.normalize_key url2 = URLCache.empty.normalize_key url
       then some pages else none) := by
  by_cases h : urlCacheFallbackKey url2 = urlCacheFallbackKey url
  · by_cases hs : truthyStr sid <;>
    · simp only [URLCache.get, URLCache.set, URLCache.empty, URLCache.normalize_key,
        lookupA, updateA, hs, Bool.false_eq_true, if_true, if_false]
      simp only [h]
      simp
  · have h2 : urlCacheFallbackKey url ≠ urlCacheFallbackKey url2 :=
      fun he => h he.symm
    by_cases hs : truthyStr sid <;>
      simp [URLCache.get, URLCache.set, URLCache.empty, URLCache.normalize_key,
        h, h2, hs, lookupA, updateA]

/-- C7 (amended): when an entry already exists for the canonical key,
`URLCache.set` keeps its page list unchanged and only adds the school id
when that id is truthy (non-`None` and non-empty). -/
theorem C7_set_preserves_entry (c : URLCache) (url : String) (pages : List Page)
    (sid : Option String) (e : CacheEntry)
    (h : lookupA (c.normalize_key url) c.cache = some e) :
    lookupA (c.normalize_key url) ((c.set url pages sid).cache) =
      some { e with schools := if truthyStr sid
                               then insertUniq (sid.getD "") e.schools
                               else e.schools } := by
  unfold URLCache.set
  by_cases hs : truthyStr sid <;>
    simp [hs, h, lookupA_updateA_self]

def pgW : Page := ⟨"https://a.com/x", "hello", [], 200, 5⟩

def pgW2 : Page := ⟨"https://a.com/x", "bye", [], 200, 3⟩

/-- C7 witness: a second `set` on the same canonical key with a truthy
school id keeps the first page list and adds the id. -/
theorem C7_set_preserves_entry_witness :
    lookupA ((URLCache.empty.set "https://a.com/x" [pgW] none).normalize_key
        "https://a.com/x")
      (((URLCache.empty.set "https://a.com/x" [pgW] none).set "https://a.com/x"
          [pgW2] (some "s1")).cache) = some ⟨[pgW], ["s1"]⟩ := by
  have h : lookupA ((URLCache.empty.set "https://a.com/x" [pgW] none).normalize_key
      "https://a.com/x") (URLCache.empty.set "https://a.com/x" [pgW] none).cache =
      some ⟨[pgW], []⟩ := by decide
  have := C7_set_preserves_entry (URLCache.empty.set "https://a.com/x" [pgW] none)
    "https://a.com/x" [pgW2] (some "s1") ⟨[pgW], []⟩ h
  simpa [insertUniq] using this

/-- C7 counterexample: the claim says a later `set` adds the given school
id whenever it is non-`None`, but for the non-`None` id `''` (falsy in
Python) the code adds nothing: the entry keeps `schools = []`. -/
theorem C7_empty_school_id_not_added :
    lookupA ((URLCache.empty.set "https://a.com/x" [pgW] none).normalize_key
        "https://a.com/x")
      (((URLCache.empty.set "https://a.com/x" [pgW] none).set "https://a.com/x"
          [pgW2] (some "")).cache) = some ⟨[pgW], []⟩ := by decide

theorem enqueueLinks_cons (skip : String → Bool) (visited : List String)
    (q : List (String × Nat)) (l : String) (ls : List String) (d : Nat) :
    enqueueLinks skip visited q (l :: ls) d =
      enqueueLinks skip visited
        (if l ∈ visited then q else if skip l then q else q ++ [(l, d)]) ls d := by
  simp [enqueueLinks]

/-- C2 (amended): when links discovered on a fetched page are enqueued,
already-visited links are dropped and links matching a skip pattern are
dropped as well; exactly the unvisited, non-matching links are appended
to the queue, in order, at depth `d`. -/
theorem C2_enqueue_filters_links (skip : String → Bool) (visited : List String)
    (q : List (String × Nat)) (links : List String) (d : Nat) :
    enqueueLinks skip visited q links d =
      q ++ (links.filter (fun l => !(decide (l ∈ visited)) && !(skip l))).map
        (fun l => (l, d)) := by
  induction links generalizing q with
  | nil => simp [enqueueLinks]
  | cons l ls ih =>
    rw [enqueueLinks_cons]
    by_cases h1 : l ∈ visited
    · simp [h1, ih]
    · by_cases h2 : skip l
      · simp [h1, h2, ih]
      · simp [h1, h2, ih]

/-- C2 counterexample: a not-yet-visited link matching the skip pattern
is not appended to the crawl queue (the claim says it still is): the
queue stays empty. -/
theorem C2_skip_link_not_enqueued :
    enqueueLinks (fun u => u == "https://s.com/skip") [] []
      ["https://s.com/skip"] 1 = [] := by decide

/-! ## A concrete crawl used by several witnesses and counterexamples:
five pages on `s.com`, where the seed links to two pages and a
skip-pattern URL, both inner pages link to `urlL`, and every fetch of
`urlL` fails with a connection error. -/

def urlS : String := "https://s.com/a"

def urlA : String := "https://s.com/b"

def urlB : String := "https://s.com/c"

def urlL : String := "https://s.com/l"

def urlK : String := "https://s.com/skip"

def netA : Bool → Bool → Bool → String → NetResult := fun _ _ _ u =>
  if u = urlL then .err (.conn "connection refused") else .resp ⟨200, none, u, u⟩

def envA : ScrapeEnv :=
  { net := netA
    urljoin := fun _ loc => loc
    extract_text := fun h => h
    extract_links := fun h _ _ =>
      if h = urlS then [urlA, urlB, urlK]
      else if h = urlA then [urlL]
      else if h = urlB then [urlL]
      else []
    is_bot_protection_page := fun _ => false }

def cfgA : ScraperConfig :=
  { verify_ssl := true, ssl_fallback := true, ssl_retry_unverified := true,
    hasCloudscraper := false, delay := 1/2, min_delay := 3/10, max_delay := 2,
    max_depth := 3, max_pages := 50, quick_content_check := false,
    require_relevant_content := false, min_content_length := 200,
    should_skip_url := fun u => u == urlK, relevantTerms := [] }

def pageS : Page :=
  ⟨urlS, urlS, [urlA, urlB, urlK], 200, 15⟩

def csA : CrawlState :=
  ⟨⟨[], [], []⟩, [(urlS, 0)], ⟨1/2, 3/10, 2, 0, 0⟩, []⟩

/-- C5 (amended): the delay decrease fires on the 6th consecutive
success (the counter is incremented before the `> 5` check), multiplying
by 0.9 with floor `min_delay` and resetting the streak; up to the 5th
success the delay is unchanged; the 3rd consecutive failure multiplies
by 1.5 with ceiling `max_delay`; after a successful fetch the crawl
iteration sleeps for the updated current delay. -/
theorem C5_adaptive_delay :
    (∀ d : DelayState,
      (d.consecutive_successes = 5 → d.min_delay < d.current_delay →
        (onFetchSuccess d).current_delay =
          max d.min_delay (d.current_delay * (9/10)) ∧
        (onFetchSuccess d).consecutive_successes = 0) ∧
      (d.consecutive_successes + 1 ≤ 5 →
        onFetchSuccess d =
          { d with consecutive_successes := d.consecutive_successes + 1,
                   consecutive_errors := 0 }) ∧
      (d.consecutive_errors = 2 →
        (onFetchFailure d).current_delay =
          min d.max_delay (d.current_delay * (3/2)))) ∧
    (∀ (env : ScrapeEnv) (cfg : ScraperConfig) (bd : String) (maxDepth : Nat)
       (cs : CrawlState) (url : String) (depth : Nat) (pd : Page)
       (st2 : ScrapeState),
      url ∉ cs.s.visited → ¬ depth > maxDepth → netlocOf url = bd →
      scrape_page env cfg url (decide (depth = 0) && cfg.hasCloudscraper)
        (!(cfg.should_skip_url url && decide (depth > 0))) (some bd) cs.s =
        (some pd, st2) →
      0 < (onFetchSuccess cs.delays).current_delay →
      (crawlStep env cfg bd maxDepth cs url depth).sleeps =
        cs.sleeps ++ [(onFetchSuccess cs.delays).current_delay] ∧
      (crawlStep env cfg bd maxDepth cs url depth).delays =
        onFetchSuccess cs.delays) := by
  constructor
  · intro d
    refine ⟨fun h1 h2 => ?_, fun h => ?_, fun h => ?_⟩
    · simp [onFetchSuccess, h1, h2]
    · have : ¬ (d.consecutive_successes + 1 > 5) := by omega
      simp [onFetchSuccess, this]
    · simp [onFetchFailure, h]
  · intro env cfg bd maxDepth cs url depth pd st2 h1 h2 h3 h4 h5
    simp only [Bool.not_and] at h4
    simp [crawlStep, h1, h2, h3, h4, h5]

/-- C5 witness: at five prior consecutive successes and delay 1 the 6th
success multiplies by 0.9; a successful fetch in the concrete crawl
appends the updated delay to the sleep log. -/
theorem C5_adaptive_delay_witness :
    ((onFetchSuccess ⟨1, 3/10, 2, 5, 0⟩).current_delay =
      max (3/10 : Rat) (1 * (9/10)) ∧
     (onFetchSuccess ⟨1, 3/10, 2, 5, 0⟩).consecutive_successes = 0) ∧
    (crawlStep envA cfgA "s.com" 3 csA urlS 0).sleeps =
      csA.sleeps ++ [(onFetchSuccess csA.delays).current_delay] := by
  refine ⟨(C5_adaptive_delay.1 ⟨1, 3/10, 2, 5, 0⟩).1 rfl (by norm_num), ?_⟩
  have hd : onFetchSuccess csA.delays = ⟨1/2, 3/10, 2, 1, 0⟩ := by
    simp [onFetchSuccess, csA]
  exact (C5_adaptive_delay.2 envA cfgA "s.com" 3 csA urlS 0 pageS
    ⟨[urlS], [pageS], [(urlS, true)]⟩ (by decide) (by decide) (by decide)
    (by decide) (by rw [hd]; norm_num)).1

/-- C5 counterexample: the claim says the 5th consecutive success already
multiplies the delay by 0.9, but after the 5th success the delay is
unchanged (the code requires the incremented streak to exceed 5). -/
theorem C5_fifth_success_no_decrease :
    (onFetchSuccess ⟨1, 3/10, 2, 4, 0⟩).current_delay = 1 ∧
    max (3/10 : Rat) (1 * (9/10)) ≠ 1 := by
  constructor
  · simp [onFetchSuccess]
  · norm_num

theorem aggStep_pages_with_terms (a : AggAcc) (r : SearchResult) :
    (aggStep a r).pages_with_terms = a.pages_with_terms := by
  unfold aggStep
  dsimp only
  split_ifs <;> rfl

theorem foldl_aggStep_pages_with_terms (rs : List SearchResult) (a : AggAcc) :
    (rs.foldl aggStep a).pages_with_terms = a.pages_with_terms := by
  induction rs generalizing a with
  | nil => rfl
  | cons r rest ih => rw [List.foldl_cons, ih, aggStep_pages_with_terms]

theorem sortStrings_sorted (l : List String) :
    (sortStrings l).Sorted (fun a b => a ≤ b) :=
  List.sorted_insertionSort _ l

theorem ensureKey_noop (k : String) (v : AggValue) (d : List (String × AggValue))
    (w : AggValue) (h : d.lookup k = some w) : ensureKey k v d = d := by
  simp [ensureKey, h]

/-- C3 (amended): the aggregated result always contains three roll-ups -
combined, school and district - each with its terms list, page-URL list,
total occurrence count and pages-with-terms count present even when
empty, the terms lists sorted, and `search_school_content` returns that
dict unchanged (its backfill adds nothing); there is no separate
`unknown` roll-up - pages of unknown source count only toward the
combined roll-up. -/
theorem C3_rollups_shape (rs : List SearchResult) (cfgTerms : List String)
    (cfgCtx : Nat) (pages : List SPage) (sterms : Option (List String)) :
    ((aggregate_results rs).lookup "terms_found" =
       some (.strs (aggFinal rs).terms_found) ∧
     (aggFinal rs).terms_found.Sorted (fun a b => a ≤ b)) ∧
    ((aggregate_results rs).lookup "page_urls" =
       some (.strs (aggFinal rs).page_urls)) ∧
    ((aggregate_results rs).lookup "total_occurrences" =
       some (.num (aggFinal rs).total_occurrences)) ∧
    ((aggregate_results rs).lookup "pages_with_terms" = some (.num rs.length)) ∧
    ((aggregate_results rs).lookup "school_terms_found" =
       some (.strs (aggFinal rs).school_terms_found) ∧
     (aggFinal rs).school_terms_found.Sorted (fun a b => a ≤ b)) ∧
    ((aggregate_results rs).lookup "school_page_urls" =
       some (.strs (aggFinal rs).school_page_urls)) ∧
    ((aggregate_results rs).lookup "school_total_occurrences" =
       some (.num (aggFinal rs).school_total_occurrences)) ∧
    ((aggregate_results rs).lookup "school_pages_with_terms" =
       some (.num (aggFinal rs).school_pages_with_terms)) ∧
    ((aggregate_results rs).lookup "district_terms_found" =
       some (.strs (aggFinal rs).district_terms_found) ∧
     (aggFinal rs).district_terms_found.Sorted (fun a b => a ≤ b)) ∧
    ((aggregate_results rs).lookup "district_page_urls" =
       some (.strs (aggFinal rs).district_page_urls)) ∧
    ((aggregate_results rs).lookup "district_total_occurrences" =
       some (.num (aggFinal rs).district_total_occurrences)) ∧
    ((aggregate_results rs).lookup "district_pages_with_terms" =
       some (.num (aggFinal rs).district_pages_with_terms)) ∧
    (search_school_content cfgTerms cfgCtx pages sterms =
      aggregate_results (search_pages ⟨pyOrList sterms cfgTerms, cfgCtx⟩ pages)) := by
  refine ⟨⟨by rfl, sortStrings_sorted _⟩, by rfl, by rfl, ?_,
    ⟨by rfl, sortStrings_sorted _⟩, by rfl, by rfl, by rfl,
    ⟨by rfl, sortStrings_sorted _⟩, by rfl, by rfl, by rfl, by rfl⟩
  show _ = some (.num rs.length)
  have h1 : (aggregate_results rs).lookup "pages_with_terms" =
      some (.num (aggFinal rs).pages_with_terms) := by rfl
  have h2 : (aggFinal rs).pages_with_terms = rs.length := by
    show (rs.foldl aggStep _).pages_with_terms = rs.length
    rw [foldl_aggStep_pages_with_terms]
  rw [h1, h2]

/-- C3 counterexample: the claim requires a fourth, `unknown`, roll-up;
the aggregated dict has no `unknown_*` keys at all (checked on the empty
input, and on `search_school_content`). -/
theorem C3_no_unknown_rollup :
    (aggregate_results []).lookup "unknown_terms_found" = none ∧
    (aggregate_results []).lookup "unknown_page_urls" = none ∧
    (aggregate_results []).lookup "unknown_total_occurrences" = none ∧
    (aggregate_results []).lookup "unknown_pages_with_terms" = none ∧
    (search_school_content [] 0 [] none).lookup "unknown_terms_found" = none := by
  decide

theorem stFold_id (ts : TermSearcher) (text : String) (terms : List String)
    (acc : List String × List Occurrence × Nat)
    (h : ∀ t ∈ terms, find_term_occurrences ts text t = []) :
    terms.foldl (searchTextStep ts text) acc = acc := by
  induction terms generalizing acc with
  | nil => rfl
  | cons t rest ih =>
    rw [List.foldl_cons]
    have h1 := h t (by simp)
    rw [show searchTextStep ts text acc t = acc from by simp [searchTextStep, h1]]
    exact ih _ (fun u hu => h u (by simp [hu]))

theorem stFold_nil_iff (ts : TermSearcher) (text : String) (terms : List String)
    (acc : List String × List Occurrence × Nat) :
    (terms.foldl (searchTextStep ts text) acc).1 = [] ↔
      acc.1 = [] ∧ ∀ t ∈ terms, find_term_occurrences ts text t = [] := by
  induction terms generalizing acc with
  | nil => simp
  | cons t rest ih =>
    rw [List.foldl_cons, ih]
    by_cases hm : find_term_occurrences ts text t = []
    · simp [searchTextStep, hm]
    · simp only [searchTextStep, if_pos hm, ne_eq, hm, not_false_iff, if_true]
      simp [insertUniq_ne_nil t acc.1, hm]

theorem searchText_terms_found_nil_iff (ts : TermSearcher) (text url : String) :
    (search_text ts text url).terms_found = [] ↔
      ∀ t ∈ ts.search_terms, find_term_occurrences ts text t = [] := by
  unfold search_text
  simpa using stFold_nil_iff ts text ts.search_terms ([], [], 0)

/-- Whether a page's text contains at least one occurrence of a
configured term. -/
def pageHasMatch (ts : TermSearcher) (p : SPage) : Bool :=
  ts.search_terms.any (fun t => !(find_term_occurrences ts p.text t).isEmpty)

theorem pageHasMatch_false_iff (ts : TermSearcher) (p : SPage) :
    pageHasMatch ts p = false ↔
      ∀ t ∈ ts.search_terms, find_term_occurrences ts p.text t = [] := by
  simp [pageHasMatch, List.any_eq_false]

/-- C8: on a text with zero occurrences of every configured term,
`search_text` returns `terms_found = []` and `total_matches = 0`; on a
text with one configured term three times in mixed case it returns 3
occurrences of the case-insensitive literal matcher, each with a context
window of half-width `context_length / 2` on each side, clamped to the
text bounds and whitespace-collapsed. -/
theorem C8_search_text_behaviour (ts : TermSearcher) (text url : String)
    (h : ∀ t ∈ ts.search_terms, find_term_occurrences ts text t = []) :
    search_text ts text url = ⟨url, [], [], 0, none⟩ ∧
    search_text ⟨["equity"], 10⟩ "Ab Equity xyEQUITY then  equity." "u" =
      ⟨"u", ["equity"],
       [⟨"equity", 3, 9, "Ab Equity xyEQ", "Equity"⟩,
        ⟨"equity", 12, 18, "ty xyEQUITY then", "EQUITY"⟩,
        ⟨"equity", 25, 31, "hen equity.", "equity"⟩], 3, none⟩ := by
  constructor
  · unfold search_text
    rw [stFold_id ts text ts.search_terms ([], [], 0) h]
  · decide

/-- C8 witness: the theorem applied to the term list `["equity"]` and
the term-free text `"zz"`. -/
theorem C8_search_text_behaviour_witness :
    search_text ⟨["equity"], 10⟩ "zz" "u" = ⟨"u", [], [], 0, none⟩ ∧
    search_text ⟨["equity"], 10⟩ "Ab Equity xyEQUITY then  equity." "u" =
      ⟨"u", ["equity"],
       [⟨"equity", 3, 9, "Ab Equity xyEQ", "Equity"⟩,
        ⟨"equity", 12, 18, "ty xyEQUITY then", "EQUITY"⟩,
        ⟨"equity", 25, 31, "hen equity.", "equity"⟩], 3, none⟩ :=
  C8_search_text_behaviour ⟨["equity"], 10⟩ "zz" "u" (by decide)

/-- C9 (amended): every result of `search_pages` has a non-empty
`terms_found`; pages with empty text and pages without any configured
term are omitted; consequently `pages_with_terms` equals the number of
input pages with non-empty text that contain at least one occurrence of
a configured term. -/
theorem C9_search_pages_results (ts : TermSearcher) (pages : List SPage) :
    (∀ r ∈ search_pages ts pages, r.terms_found ≠ []) ∧
    (search_pages ts pages).length =
      pages.countP (fun p => !(p.text == "") && pageHasMatch ts p) ∧
    (aggregate_results (search_pages ts pages)).lookup "pages_with_terms" =
      some (.num (pages.countP (fun p => !(p.text == "") && pageHasMatch ts p))) := by
  have hcons : ∀ (p : SPage) (rest : List SPage),
      search_pages ts (p :: rest) =
        if p.text = "" then search_pages ts rest
        else if (search_text ts p.text p.url).terms_found = [] then
          search_pages ts rest
        else { search_text ts p.text p.url with
                 source := some (p.source.getD "unknown") } ::
               search_pages ts rest := by
    intro p rest
    rw [search_pages]
    by_cases hp : p.text = ""
    · simp [hp]
    · by_cases hn : (search_text ts p.text p.url).terms_found = []
      · simp [hp, hn]
      · simp [hp, hn]
  have key : ∀ ps : List SPage,
      (∀ r ∈ search_pages ts ps, r.terms_found ≠ []) ∧
      (search_pages ts ps).length =
        ps.countP (fun p => !(p.text == "") && pageHasMatch ts p) := by
    intro ps
    induction ps with
    | nil => simp [search_pages]
    | cons p rest ih =>
      rw [hcons]
      by_cases hp : p.text = ""
      · simpa [hp, List.countP_cons] using ih
      · by_cases hm : pageHasMatch ts p
        · have hne : ¬ (search_text ts p.text p.url).terms_found = [] := by
            rw [searchText_terms_found_nil_iff]
            intro hall
            exact absurd (pageHasMatch_false_iff ts p |>.mpr hall) (by simp [hm])
          rw [if_neg hp, if_neg hne]
          constructor
          · intro r hr
            rcases List.mem_cons.mp hr with h1 | h2
            · rw [h1]; exact hne
            · exact ih.1 r h2
          · simp [List.countP_cons, hp, hm, ih.2]
        · have hall : ∀ t ∈ ts.search_terms,
              find_term_occurrences ts p.text t = [] :=
            (pageHasMatch_false_iff ts p).mp (by simpa using hm)
          have hnil : (search_text ts p.text p.url).terms_found = [] :=
            (searchText_terms_found_nil_iff ts p.text p.url).mpr hall
          rw [if_neg hp, if_pos hnil]
          refine ⟨ih.1, ?_⟩
          simp [List.countP_cons, hp, hm, ih.2]
  refine ⟨(key pages).1, (key pages).2, ?_⟩
  have hA : (aggregate_results (search_pages ts pages)).lookup "pages_with_terms" =
      some (.num (aggFinal (search_pages ts pages)).pages_with_terms) := by rfl
  have hB : (aggFinal (search_pages ts pages)).pages_with_terms =
      (search_pages ts pages).length := by
    show ((search_pages ts pages).foldl aggStep _).pages_with_terms = _
    rw [foldl_aggStep_pages_with_terms]
  rw [hA, hB, (key pages).2]

/-- No URL that was fetched with success is ever fetched again later in
the trace. -/
def NoRefetchAfterSuccess : List (String × Bool) → Prop
  | [] => True
  | (u, ok) :: rest => (ok = true → ∀ e ∈ rest, e.1 ≠ u) ∧ NoRefetchAfterSuccess rest

theorem buildPage_facts (env : ScrapeEnv) (bd : Option String) (url : String)
    (r : Response) (f : String) (st : ScrapeState) (add : Bool) :
    (∃ pg, (buildPage env bd url r f st add).1 = some pg) ∧
    (∀ v ∈ st.visited, v ∈ (buildPage env bd url r f st add).2.visited) ∧
    url ∈ (buildPage env bd url r f st add).2.visited ∧
    ((buildPage env bd url r f st add).2.pages = st.pages ∨
      ∃ pg, (buildPage env bd url r f st add).2.pages = st.pages ++ [pg]) ∧
    (buildPage env bd url r f st add).2.trace = st.trace := by
  unfold buildPage
  refine ⟨⟨_, rfl⟩, ?_, ?_, ?_, rfl⟩
  · intro v hv
    dsimp only
    split
    · exact mem_insertUniq_of_mem _ _ _ (mem_insertUniq_of_mem _ _ _ hv)
    · exact mem_insertUniq_of_mem _ _ _ hv
  · dsimp only
    split
    · exact mem_insertUniq_of_mem _ _ _ (mem_insertUniq_self _ _)
    · exact mem_insertUniq_self _ _
  · dsimp only
    split
    · exact Or.inr ⟨_, rfl⟩
    · exact Or.inl rfl

theorem afterResponse_cases (env : ScrapeEnv) (cfg : ScraperConfig)
    (bd : Option String) (url : String) (st : ScrapeState) (add : Bool)
    (r : Response) (f : String) (ucs : Bool) :
    afterResponse env cfg bd url st add r f ucs = (none, st) ∨
    ∃ r2 f2, afterResponse env cfg bd url st add r f ucs =
      buildPage env bd url r2 f2 st add := by
  unfold afterResponse
  dsimp only
  by_cases hc1 : (truthyStr bd && is_external_redirect bd f) = true
  · rw [if_pos hc1]; exact Or.inl (by trivial)
  · rw [if_neg hc1]
    by_cases hc2 : (env.is_bot_protection_page r.text && !ucs) = true
    · rw [if_pos hc2]
      by_cases hc3 : cfg.hasCloudscraper = true
      · rw [if_pos hc3]
        rcases hb : botRetry env cfg bd url r f with _ | ⟨r2, f2, u⟩ <;>
          simp only [hb]
        · exact Or.inl (by trivial)
        · exact Or.inr ⟨_, _, rfl⟩
      · rw [if_neg hc3]; exact Or.inr ⟨_, _, rfl⟩
    · rw [if_neg hc2]; exact Or.inr ⟨_, _, rfl⟩

theorem outerHandler_cases (env : ScrapeEnv) (cfg : ScraperConfig)
    (bd : Option String) (url : String) (st : ScrapeState) (add : Bool)
    (e : NetErr) :
    outerHandler env cfg bd url st add e = (none, st) ∨
    ∃ r f, outerHandler env cfg bd url st add e =
      buildPage env bd url r f st add := by
  unfold outerHandler
  cases e with
  | ssl msg =>
    dsimp only
    by_cases hc1 : (truthyStr bd && !(inStr (bd.getD "") msg)) = true
    · rw [if_pos hc1]; exact Or.inl (by trivial)
    · rw [if_neg hc1]
      by_cases hc2 : (cfg.ssl_retry_unverified && handshakeIn msg) = true
      · rw [if_pos hc2]
        rcases hn : env.net false true false url with r | e2 <;> simp only [hn]
        · cases hrs : raiseForStatus r with
          | some e3 => simp only [hrs]; exact Or.inl (by trivial)
          | none =>
            simp only [hrs]
            by_cases hc3 : (truthyStr bd && is_external_redirect bd r.url) = true
            · rw [if_pos hc3]; exact Or.inl (by trivial)
            · rw [if_neg hc3]; exact Or.inr ⟨_, _, rfl⟩
        · exact Or.inl (by trivial)
      · rw [if_neg hc2]; exact Or.inl (by trivial)
  | http resp m => exact Or.inl rfl
  | conn m => exact Or.inl rfl
  | timeout m => exact Or.inl rfl
  | tooManyRedirects m => exact Or.inl rfl
  | invalidUrl => exact Or.inl rfl
  | missingSchema => exact Or.inl rfl
  | invalidSchema => exact Or.inl rfl
  | chunked m => exact Or.inl rfl
  | contentDecoding m => exact Or.inl rfl
  | unicode => exact Or.inl rfl
  | reqOther m => exact Or.inl rfl
  | other m => exact Or.inl rfl

theorem scrapePageCore_cases (env : ScrapeEnv) (cfg : ScraperConfig)
    (url : String) (ucf add : Bool) (bd : Option String) (st : ScrapeState) :
    scrapePageCore env cfg url ucf add bd st = (none, st) ∨
    ∃ r f, scrapePageCore env cfg url ucf add bd st =
      buildPage env bd url r f st add := by
  unfold scrapePageCore
  cases hcs : (if ucf && cfg.hasCloudscraper
               then csFirstBlock env cfg bd url else CsOut.fallThrough) with
  | retNone => simp only [hcs]; exact Or.inl (by trivial)
  | got r => simp only [hcs]; exact afterResponse_cases env cfg bd url st add r r.url true
  | fallThrough =>
    simp only [hcs]
    cases hr : regularBlock env cfg bd url with
    | retNone => simp only [hr]; exact Or.inl (by trivial)
    | got r => simp only [hr]; exact afterResponse_cases env cfg bd url st add r r.url false
    | raised e => simp only [hr]; exact outerHandler_cases env cfg bd url st add e

theorem scrape_page_effects (env : ScrapeEnv) (cfg : ScraperConfig)
    (url : String) (ucf add : Bool) (bd : Option String) (st : ScrapeState) :
    (∀ v ∈ st.visited, v ∈ (scrape_page env cfg url ucf add bd st).2.visited) ∧
    ((scrape_page env cfg url ucf add bd st).1.isSome = true →
      url ∈ (scrape_page env cfg url ucf add bd st).2.visited) ∧
    ((scrape_page env cfg url ucf add bd st).2.pages = st.pages ∨
      ∃ pg, (scrape_page env cfg url ucf add bd st).2.pages = st.pages ++ [pg]) ∧
    ((scrape_page env cfg url ucf add bd st).2.trace = st.trace ∨
      ((scrape_page env cfg url ucf add bd st).2.trace =
         st.trace ++ [(url, (scrape_page env cfg url ucf add bd st).1.isSome)] ∧
       url ∉ st.visited)) := by
  by_cases h1 : is_valid_url url
  · by_cases h2 : url ∈ st.visited
    · have hsp : scrape_page env cfg url ucf add bd st = (none, st) := by
        unfold scrape_page
        rw [if_neg (by simpa using h1), if_pos h2]
      rw [hsp]
      exact ⟨fun v hv => hv, by simp, Or.inl rfl, Or.inl rfl⟩
    · have hw : scrape_page env cfg url ucf add bd st =
          ((scrapePageCore env cfg url ucf add bd st).1,
           { (scrapePageCore env cfg url ucf add bd st).2 with
               trace := (scrapePageCore env cfg url ucf add bd st).2.trace ++
                 [(url, (scrapePageCore env cfg url ucf add bd st).1.isSome)] }) := by
        unfold scrape_page
        rw [if_neg (by simpa using h1), if_neg h2]
      rcases scrapePageCore_cases env cfg url ucf add bd st with hc | ⟨r, f, hc⟩
      · rw [hw, hc]
        exact ⟨fun v hv => hv, by simp, Or.inl rfl, Or.inr ⟨rfl, h2⟩⟩
      · obtain ⟨⟨pg, hpg⟩, hmono, hurl, hpages, htrace⟩ :=
          buildPage_facts env bd url r f st add
        rw [hw, hc]
        refine ⟨hmono, fun _ => hurl, hpages, Or.inr ⟨?_, h2⟩⟩
        rw [htrace]
  · have hsp : scrape_page env cfg url ucf add bd st = (none, st) := by
      unfold scrape_page
      rw [if_pos (by simpa using h1)]
    rw [hsp]
    exact ⟨fun v hv => hv, by simp, Or.inl rfl, Or.inl rfl⟩

theorem crawlStep_effects (env : ScrapeEnv) (cfg : ScraperConfig) (bd : String)
    (maxD : Nat) (cs : CrawlState) (url : String) (depth : Nat) :
    (∀ v ∈ cs.s.visited, v ∈ (crawlStep env cfg bd maxD cs url depth).s.visited) ∧
    ((crawlStep env cfg bd maxD cs url depth).s.pages = cs.s.pages ∨
      ∃ pg, (crawlStep env cfg bd maxD cs url depth).s.pages = cs.s.pages ++ [pg]) ∧
    ((crawlStep env cfg bd maxD cs url depth).s.trace = cs.s.trace ∨
      ∃ b, (crawlStep env cfg bd maxD cs url depth).s.trace =
             cs.s.trace ++ [(url, b)] ∧ url ∉ cs.s.visited ∧
           (b = true → url ∈ (crawlStep env cfg bd maxD cs url depth).s.visited)) := by
  by_cases h1 : url ∈ cs.s.visited ∨ depth > maxD
  · have hcs : crawlStep env cfg bd maxD cs url depth = cs := by
      unfold crawlStep
      rw [if_pos h1]
    rw [hcs]
    exact ⟨fun v hv => hv, Or.inl rfl, Or.inl rfl⟩
  · by_cases h2 : netlocOf url ≠ bd
    · have hcs : crawlStep env cfg bd maxD cs url depth = cs := by
        unfold crawlStep
        rw [if_neg h1]
        dsimp only
        rw [if_pos h2]
      rw [hcs]
      exact ⟨fun v hv => hv, Or.inl rfl, Or.inl rfl⟩
    · have hcs : (crawlStep env cfg bd maxD cs url depth).s =
          (scrape_page env cfg url (decide (depth = 0) && cfg.hasCloudscraper)
            (!(cfg.should_skip_url url && decide (depth > 0))) (some bd) cs.s).2 := by
        unfold crawlStep
        rw [if_neg h1]
        dsimp only
        rw [if_neg h2]
        split <;> rfl
      have hnotin : url ∉ cs.s.visited := fun hmem => h1 (Or.inl hmem)
      obtain ⟨hmono, hsucc, hpages, htrace⟩ := scrape_page_effects env cfg url
        (decide (depth = 0) && cfg.hasCloudscraper)
        (!(cfg.should_skip_url url && decide (depth > 0))) (some bd) cs.s
      rw [hcs]
      refine ⟨hmono, hpages, ?_⟩
      rcases htrace with ht | ⟨ht, _⟩
      · exact Or.inl ht
      · exact Or.inr ⟨_, ht, hnotin, fun hb => hsucc hb⟩

theorem crawlLoop_delta (env : ScrapeEnv) (cfg : ScraperConfig) (bd : String)
    (maxD maxP : Nat) :
    ∀ (fuel : Nat) (cs : CrawlState), ∃ tr,
      (crawlLoop env cfg bd maxD maxP cs fuel).s.trace = cs.s.trace ++ tr ∧
      (∀ v ∈ cs.s.visited, v ∈ (crawlLoop env cfg bd maxD maxP cs fuel).s.visited) ∧
      (∀ u, u ∈ cs.s.visited → ∀ e ∈ tr, e.1 ≠ u) ∧
      NoRefetchAfterSuccess tr := by
  intro fuel
  induction fuel with
  | zero =>
    intro cs
    exact ⟨[], by simp [crawlLoop], fun v hv => hv, by simp, trivial⟩
  | succ fuel ih =>
    intro cs
    rw [crawlLoop]
    cases hq : cs.queue with
    | nil => exact ⟨[], by simp, fun v hv => hv, by simp, trivial⟩
    | cons hd rest =>
      obtain ⟨url, depth⟩ := hd
      dsimp only
      by_cases hp : cs.s.pages.length < maxP
      · rw [if_pos hp]
        obtain ⟨hmono1, _, htr1⟩ :=
          crawlStep_effects env cfg bd maxD { cs with queue := rest } url depth
        obtain ⟨tr2, htr2, hmono2, havoid2, hnr2⟩ :=
          ih (crawlStep env cfg bd maxD { cs with queue := rest } url depth)
        rcases htr1 with ht1 | ⟨b, ht1, hnotin, hbsucc⟩
        · refine ⟨tr2, ?_, ?_, ?_, hnr2⟩
          · rw [htr2, ht1]
          · exact fun v hv => hmono2 v (hmono1 v hv)
          · exact fun u hu e he => havoid2 u (hmono1 u hu) e he
        · refine ⟨(url, b) :: tr2, ?_, ?_, ?_, ?_⟩
          · rw [htr2, ht1, List.append_assoc]
            rfl
          · exact fun v hv => hmono2 v (hmono1 v hv)
          · intro u hu e he
            rcases List.mem_cons.mp he with he1 | he2
            · subst he1
              intro hcontra
              exact hnotin ((show url = u from hcontra).symm ▸ hu)
            · exact havoid2 u (hmono1 u hu) e he2
          · exact ⟨fun hb e he => havoid2 url (hbsucc hb) e he, hnr2⟩
      · rw [if_neg hp]
        exact ⟨[], by simp, fun v hv => hv, by simp, trivial⟩

theorem crawlLoop_pages (env : ScrapeEnv) (cfg : ScraperConfig) (bd : String)
    (maxD maxP : Nat) :
    ∀ (fuel : Nat) (cs : CrawlState),
      cs.s.pages.length ≤ (crawlLoop env cfg bd maxD maxP cs fuel).s.pages.length ∧
      (cs.s.pages.length ≤ maxP →
        (crawlLoop env cfg bd maxD maxP cs fuel).s.pages.length ≤ maxP) := by
  intro fuel
  induction fuel with
  | zero => intro cs; exact ⟨Nat.le_refl _, fun h => h⟩
  | succ fuel ih =>
    intro cs
    rw [crawlLoop]
    cases hq : cs.queue with
    | nil => exact ⟨Nat.le_refl _, fun h => h⟩
    | cons hd rest =>
      obtain ⟨url, depth⟩ := hd
      dsimp only
      by_cases hp : cs.s.pages.length < maxP
      · rw [if_pos hp]
        obtain ⟨_, hpages, _⟩ :=
          crawlStep_effects env cfg bd maxD { cs with queue := rest } url depth
        obtain ⟨hle, hbound⟩ :=
          ih (crawlStep env cfg bd maxD { cs with queue := rest } url depth)
        have hstep : cs.s.pages.length ≤
            (crawlStep env cfg bd maxD { cs with queue := rest } url depth).s.pages.length ∧
            (crawlStep env cfg bd maxD { cs with queue := rest } url depth).s.pages.length ≤
              cs.s.pages.length + 1 := by
          rcases hpages with h | ⟨pg, h⟩
          · rw [h]; exact ⟨Nat.le_refl _, Nat.le_succ _⟩
          · rw [h]; simp
        exact ⟨Nat.le_trans hstep.1 hle,
          fun _ => hbound (Nat.le_trans hstep.2 hp)⟩
      · rw [if_neg hp]
        exact ⟨Nat.le_refl _, fun h => h⟩

/-- C4 (amended): within one `scrape_site` crawl, the number of collected
pages is non-decreasing over the crawl loop and the final count never
exceeds `max_pages`; no URL for which a fetch returned a page is ever
fetched again (successful fetches record the URL and its redirect-final
URL in `visited_urls`, which is checked before fetching).  A URL whose
fetches all failed is not marked visited and may be fetched again when
rediscovered. -/
theorem C4_crawl_invariants :
    (∀ (env : ScrapeEnv) (cfg : ScraperConfig) (bd : String)
       (maxD maxP fuel : Nat) (cs : CrawlState),
      cs.s.pages.length ≤ (crawlLoop env cfg bd maxD maxP cs fuel).s.pages.length) ∧
    (∀ (env : ScrapeEnv) (cfg : ScraperConfig) (base : String)
       (md mp : Option Nat) (fuel : Nat),
      (scrape_site env cfg base md mp fuel).1.length ≤ pyOrNat mp cfg.max_pages ∧
      NoRefetchAfterSuccess (scrape_site env cfg base md mp fuel).2.s.trace) := by
  constructor
  · intro env cfg bd maxD maxP fuel cs
    exact (crawlLoop_pages env cfg bd maxD maxP fuel cs).1
  · intro env cfg base md mp fuel
    by_cases hv : is_valid_url base
    · constructor
      · have hb := (crawlLoop_pages env cfg (netlocOf base)
          (pyOrNat md cfg.max_depth) (pyOrNat mp cfg.max_pages) fuel
          ⟨⟨[], [], []⟩, [(base, 0)], ⟨cfg.delay, cfg.min_delay, cfg.max_delay, 0, 0⟩, []⟩).2
          (Nat.zero_le _)
        simpa [scrape_site, hv] using hb
      · obtain ⟨tr, htr, _, _, hnr⟩ := crawlLoop_delta env cfg (netlocOf base)
          (pyOrNat md cfg.max_depth) (pyOrNat mp cfg.max_pages) fuel
          ⟨⟨[], [], []⟩, [(base, 0)], ⟨cfg.delay, cfg.min_delay, cfg.max_delay, 0, 0⟩, []⟩
        have : (scrape_site env cfg base md mp fuel).2.s.trace = tr := by
          simpa [scrape_site, hv] using htr
        rw [this]
        exact hnr
    · simp [scrape_site, hv]
      trivial

/-- C4 counterexample: in a concrete crawl, `urlL` is discovered from two
pages, each fetch of it fails with a connection error, and it is fetched
twice - the claim says no URL is ever fetched twice. -/
theorem C4_url_fetched_twice :
    (scrape_site envA cfgA urlS none none 10).2.s.trace =
      [(urlS, true), (urlA, true), (urlB, true), (urlL, false), (urlL, false)] ∧
    List.countP (fun e => e.1 == urlL)
      (scrape_site envA cfgA urlS none none 10).2.s.trace = 2 :=
  ⟨rfl, rfl⟩

/-! ## Lemmas about characters, list splitting and the URL parser,
supporting the canonicalizer properties -/

theorem toNat_ofNat_small (n : Nat) (h1 : n ≤ 122) : (Char.ofNat n).toNat = n := by
  have hv : n.isValidChar := Or.inl (by omega)
  simp [Char.ofNat, hv, Char.ofNatAux, Char.toNat, UInt32.toNat, BitVec.toNat_ofNatLt]

theorem lowerChar_toNat (c : Char) :
    (lowerChar c).toNat =
      if 65 ≤ c.toNat ∧ c.toNat ≤ 90 then c.toNat + 32 else c.toNat := by
  unfold lowerChar
  split
  next h => exact toNat_ofNat_small _ (by omega)
  next h => rfl

theorem lowerChar_eq_of_eq {c d : Char} (hd : d.toNat < 97 ∨ 122 < d.toNat)
    (h : lowerChar c = d) : c = d := by
  have hn := lowerChar_toNat c
  rw [h] at hn
  by_cases hc : 65 ≤ c.toNat ∧ c.toNat ≤ 90
  · rw [if_pos hc] at hn
    exfalso
    omega
  · rw [if_neg hc] at hn
    have h2 : Char.ofNat d.toNat = Char.ofNat c.toNat := by rw [hn]
    rw [Char.ofNat_toNat, Char.ofNat_toNat] at h2
    exact h2.symm

theorem lowerChar_eq_iff_low {c d : Char} (hd : d.toNat < 65) :
    lowerChar c = d ↔ c = d := by
  constructor
  · exact lowerChar_eq_of_eq (Or.inl (by omega))
  · intro h
    subst h
    unfold lowerChar
    rw [if_neg (by omega)]

theorem lowerChar_idem (c : Char) : lowerChar (lowerChar c) = lowerChar c := by
  by_cases h : 65 ≤ c.toNat ∧ c.toNat ≤ 90
  · have h1 : (lowerChar c).toNat = c.toNat + 32 := by rw [lowerChar_toNat, if_pos h]
    rw [show lowerChar (lowerChar c) =
      (if 65 ≤ (lowerChar c).toNat ∧ (lowerChar c).toNat ≤ 90
       then Char.ofNat ((lowerChar c).toNat + 32) else lowerChar c) from rfl]
    rw [if_neg (by rw [h1]; omega)]
  · have h1 : lowerChar c = c := by unfold lowerChar; rw [if_neg h]
    rw [h1, h1]

theorem lowerL_idem (l : List Char) : lowerL (lowerL l) = lowerL l := by
  unfold lowerL
  rw [List.map_map]
  exact List.map_congr_left (fun c _ => lowerChar_idem c)

theorem netlocDelim_lowerChar (c : Char) :
    netlocDelim (lowerChar c) = netlocDelim c := by
  unfold netlocDelim
  have h1 := lowerChar_eq_iff_low (c := c) (d := '/') (by decide)
  have h2 := lowerChar_eq_iff_low (c := c) (d := '?') (by decide)
  have h3 := lowerChar_eq_iff_low (c := c) (d := '#') (by decide)
  simp only [h1, h2, h3]

theorem not_mem_lowerL {d : Char} (hd : d.toNat < 65) (l : List Char)
    (h : d ∉ l) : d ∉ lowerL l := by
  intro hmem
  obtain ⟨c, hc, he⟩ := List.mem_map.mp hmem
  exact h ((lowerChar_eq_iff_low hd |>.mp he) ▸ hc)

theorem takeWhile_append_all (p : Char → Bool) (xs ys : List Char)
    (h : ∀ a ∈ xs, p a = true) :
    (xs ++ ys).takeWhile p = xs ++ ys.takeWhile p := by
  induction xs with
  | nil => rfl
  | cons a as ih =>
    simp only [List.cons_append, List.takeWhile_cons, h a (List.mem_cons_self a as),
      if_true, ite_true]
    rw [ih (fun b hb => h b (List.mem_cons_of_mem a hb))]

theorem dropWhile_append_all (p : Char → Bool) (xs ys : List Char)
    (h : ∀ a ∈ xs, p a = true) :
    (xs ++ ys).dropWhile p = ys.dropWhile p := by
  induction xs with
  | nil => rfl
  | cons a as ih =>
    simp only [List.cons_append, List.dropWhile_cons, h a (List.mem_cons_self a as),
      if_true, ite_true]
    exact ih (fun b hb => h b (List.mem_cons_of_mem a hb))

theorem takeWhile_head_false (p : Char → Bool) (c : Char) (l : List Char)
    (h : p c = false) : (c :: l).takeWhile p = [] := by
  simp [List.takeWhile_cons, h]

theorem dropWhile_head_false (p : Char → Bool) (c : Char) (l : List Char)
    (h : p c = false) : (c :: l).dropWhile p = c :: l := by
  simp [List.dropWhile_cons, h]

theorem dropWhile_head_not (p : Char → Bool) (l : List Char) (c : Char)
    (t : List Char) (h : l.dropWhile p = c :: t) : p c = false := by
  induction l with
  | nil => simp at h
  | cons a as ih =>
    rw [List.dropWhile_cons] at h
    by_cases hp : p a = true
    · rw [if_pos hp] at h
      exact ih h
    · rw [if_neg hp] at h
      injection h with h1 h2
      rw [← h1]
      exact Bool.eq_false_iff.mpr hp

theorem dropWhile_shape (p : Char → Bool) (l : List Char) :
    l.dropWhile p = [] ∨ ∃ c t, l.dropWhile p = c :: t ∧ p c = false := by
  cases h : l.dropWhile p with
  | nil => exact Or.inl rfl
  | cons c t => exact Or.inr ⟨c, t, rfl, dropWhile_head_not p l c t h⟩

theorem dropWhile_idem (p : Char → Bool) (l : List Char) :
    (l.dropWhile p).dropWhile p = l.dropWhile p := by
  rcases dropWhile_shape p l with h | ⟨c, t, h, hc⟩
  · rw [h]; rfl
  · rw [h]
    exact dropWhile_head_false p c t hc

theorem splitFirst_not_mem (d : Char) (l : List Char) (h : d ∉ l) :
    splitFirst d l = (l, []) := by
  induction l with
  | nil => rfl
  | cons c t ih =>
    have hc : ¬ c = d := fun he => h (he ▸ List.mem_cons_self c t)
    have ht : d ∉ t := fun hm => h (List.mem_cons_of_mem c hm)
    simp [splitFirst, hc, ih ht]

theorem splitFirst_append (d : Char) (xs ys : List Char) (h : d ∉ xs) :
    splitFirst d (xs ++ d :: ys) = (xs, ys) := by
  induction xs with
  | nil => simp [splitFirst]
  | cons c t ih =>
    have hc : ¬ c = d := fun he => h (he ▸ List.mem_cons_self c t)
    have ht : d ∉ t := fun hm => h (List.mem_cons_of_mem c hm)
    simp [splitFirst, hc, ih ht]

theorem mem_splitFirst_fst (d : Char) (l : List Char) :
    ∀ c ∈ (splitFirst d l).1, c ∈ l := by
  induction l with
  | nil => simp [splitFirst]
  | cons a t ih =>
    intro c hc
    by_cases ha : a = d
    · simp [splitFirst, ha] at hc
    · simp only [splitFirst, ha, if_false, ite_false] at hc
      rcases List.mem_cons.mp hc with h1 | h2
      · exact h1 ▸ List.mem_cons_self a t
      · exact List.mem_cons_of_mem a (ih c h2)

theorem not_mem_splitFirst_fst (d : Char) (l : List Char) :
    d ∉ (splitFirst d l).1 := by
  induction l with
  | nil => simp [splitFirst]
  | cons a t ih =>
    by_cases ha : a = d
    · simp [splitFirst, ha]
    · simp only [splitFirst, ha, if_false, ite_false, List.mem_cons]
      rintro (h1 | h2)
      · exact ha h1.symm
      · exact ih h2

theorem mem_splitFirst_snd (d : Char) (l : List Char) :
    ∀ c ∈ (splitFirst d l).2, c ∈ l := by
  induction l with
  | nil => simp [splitFirst]
  | cons a t ih =>
    intro c hc
    by_cases ha : a = d
    · simp only [splitFirst, ha, if_pos, ite_true] at hc
      exact List.mem_cons_of_mem a hc
    · simp only [splitFirst, ha, if_false, ite_false] at hc
      exact List.mem_cons_of_mem a (ih c hc)

theorem splitFirst_fst_head (d : Char) (c : Char) (t : List Char) :
    (splitFirst d (c :: t)).1 = [] ∨
    ∃ t2, (splitFirst d (c :: t)).1 = c :: t2 := by
  by_cases hc : c = d
  · simp [splitFirst, hc]
  · simp [splitFirst, hc]

theorem rstripAll_prefix (d : Char) (l : List Char) :
    ∃ t, rstripAll d l ++ t = l := by
  unfold rstripAll
  obtain ⟨t, ht⟩ : ∃ t, t ++ l.reverse.dropWhile (fun c => c = d) = l.reverse :=
    ⟨l.reverse.takeWhile (fun c => c = d), List.takeWhile_append_dropWhile _ _⟩
  refine ⟨t.reverse, ?_⟩
  have := congrArg List.reverse ht
  rw [List.reverse_append] at this
  simpa using this

theorem mem_rstripAll (d : Char) (l : List Char) :
    ∀ c ∈ rstripAll d l, c ∈ l := by
  obtain ⟨t, ht⟩ := rstripAll_prefix d l
  intro c hc
  rw [← ht]
  exact List.mem_append.mpr (Or.inl hc)

theorem rstripAll_head (d : Char) (c : Char) (t : List Char) :
    rstripAll d (c :: t) = [] ∨ ∃ t2, rstripAll d (c :: t) = c :: t2 := by
  obtain ⟨s, hs⟩ := rstripAll_prefix d (c :: t)
  cases h : rstripAll d (c :: t) with
  | nil => exact Or.inl rfl
  | cons a t2 =>
    rw [h] at hs
    right
    refine ⟨t2, ?_⟩
    rw [List.cons_append] at hs
    injection hs with h1 _
    rw [h1]

theorem rstripAll_ne_single (d : Char) (l : List Char) : rstripAll d l ≠ [d] := by
  intro h
  unfold rstripAll at h
  have h2 : l.reverse.dropWhile (fun c => c = d) = [d] := by
    have := congrArg List.reverse h
    simpa using this
  have := dropWhile_head_not (fun c => c = d) l.reverse d [] h2
  simp at this

theorem rstripAll_idem (d : Char) (l : List Char) :
    rstripAll d (rstripAll d l) = rstripAll d l := by
  unfold rstripAll
  rw [List.reverse_reverse]
  rw [dropWhile_idem]

theorem pathNorm_idem (p : List Char) : pathNorm (pathNorm p) = pathNorm p := by
  unfold pathNorm
  split
  · simp
  · rw [if_neg (by simpa using rstripAll_ne_single '/' p)]
    exact rstripAll_idem '/' p

theorem splitScheme_http (rest : List Char) :
    splitScheme ('h' :: 't' :: 't' :: 'p' :: ':' :: rest) = ("http".data, rest) := rfl

theorem splitScheme_https (rest : List Char) :
    splitScheme ('h' :: 't' :: 't' :: 'p' :: 's' :: ':' :: rest) =
      ("https".data, rest) := rfl

theorem splitNetloc_slashes (rest : List Char) :
    splitNetloc ('/' :: '/' :: rest) =
      (rest.takeWhile (fun c => !netlocDelim c),
       rest.dropWhile (fun c => !netlocDelim c)) := rfl

theorem isPrefixOf_two (c1 c2 : Char) (x : List Char)
    (h : isPrefixOfB [c1, c2] x = true) : ∃ t, x = c1 :: c2 :: t := by
  rcases x with _ | ⟨a, _ | ⟨b, t⟩⟩
  · simp [isPrefixOfB] at h
  · simp [isPrefixOfB] at h
  · refine ⟨t, ?_⟩
    simp only [isPrefixOfB, Bool.and_eq_true, decide_eq_true_eq] at h
    rw [← h.1, ← h.2.1]

theorem hasAuthority_shape (l : List Char) (h : hasAuthorityL l = true) :
    ∃ rest, (splitScheme l).2 = '/' :: '/' :: rest :=
  isPrefixOf_two '/' '/' _ h

theorem afterLastSlash_suffix (p : List Char) :
    ∃ t, t ++ afterLastSlash p = p := by
  unfold afterLastSlash
  refine ⟨(p.reverse.dropWhile (fun c => ¬ c = '/')).reverse, ?_⟩
  have h := congrArg List.reverse
    (List.takeWhile_append_dropWhile (p := fun c => ¬ c = '/') (l := p.reverse))
  rw [List.reverse_append] at h
  simpa using h

theorem slash_not_mem_afterLastSlash (p : List Char) :
    '/' ∉ afterLastSlash p := by
  intro hm
  unfold afterLastSlash at hm
  rw [List.mem_reverse] at hm
  have := List.mem_takeWhile_imp hm
  simp at this

theorem mem_afterLastSlash (p : List Char) :
    ∀ c ∈ afterLastSlash p, c ∈ p := by
  obtain ⟨t, ht⟩ := afterLastSlash_suffix p
  intro c hc
  rw [← ht]
  exact List.mem_append.mpr (Or.inr hc)

theorem afterLastSlash_length_lt (p : List Char) (h : '/' ∈ p) :
    (afterLastSlash p).length < p.length := by
  obtain ⟨t, ht⟩ := afterLastSlash_suffix p
  rcases t with _ | ⟨a, t2⟩
  · rw [List.nil_append] at ht
    exact absurd (show '/' ∈ afterLastSlash p by rw [ht]; exact h)
      (slash_not_mem_afterLastSlash p)
  · have hlen := congrArg List.length ht
    simp [List.length_append] at hlen
    omega

theorem mem_splitParamsPy_fst (p : List Char) :
    ∀ c ∈ (splitParamsPy p).1, c ∈ p := by
  unfold splitParamsPy
  split
  · dsimp only
    split
    · intro c hc
      rcases List.mem_append.mp hc with h1 | h2
      · exact List.take_subset _ _ h1
      · exact mem_afterLastSlash p c (mem_splitFirst_fst ';' _ c h2)
    · intro c hc
      exact hc
  · intro c hc
    exact mem_splitFirst_fst ';' p c hc

theorem splitParamsPy_fst_head (c : Char) (t : List Char) :
    (splitParamsPy (c :: t)).1 = [] ∨
    ∃ t2, (splitParamsPy (c :: t)).1 = c :: t2 := by
  unfold splitParamsPy
  split
  next hsl =>
    dsimp only
    split
    next hsc =>
      have hmem : '/' ∈ c :: t := by simpa using hsl
      have hlen : (afterLastSlash (c :: t)).length < (c :: t).length :=
        afterLastSlash_length_lt _ hmem
      right
      have hk : (c :: t).length - (afterLastSlash (c :: t)).length =
          ((c :: t).length - (afterLastSlash (c :: t)).length - 1) + 1 := by
        omega
      rw [hk, List.take_succ_cons]
      exact ⟨_, rfl⟩
    next => exact Or.inr ⟨t, rfl⟩
  next => exact splitFirst_fst_head ';' c t

/-- Parsing the string rebuilt by the canonicalizer recovers exactly its
components: an `http`/`https` scheme, a delimiter-free netloc, a path that
is empty or slash-initial and free of `?`, `#` and `;`, and a
hash-free query appended after `?` exactly when non-empty. -/
theorem parseUrlL_reconstruct (sch n p q : List Char)
    (hs : sch = "http".data ∨ sch = "https".data)
    (hn : ∀ c ∈ n, netlocDelim c = false)
    (hp0 : p = [] ∨ ∃ t, p = '/' :: t)
    (hpq : '?' ∉ p) (hph : '#' ∉ p) (hps : ';' ∉ p)
    (hqh : '#' ∉ q) :
    parseUrlL (sch ++ "://".data ++ n ++ p ++ (if q ≠ [] then '?' :: q else [])) =
      ⟨sch, n, p, [], q, []⟩ := by
  set qpart := (if q ≠ [] then '?' :: q else []) with hqpart
  have hshape : sch ++ "://".data ++ n ++ p ++ qpart =
      sch ++ (':' :: '/' :: '/' :: (n ++ (p ++ qpart))) := by
    simp [List.append_assoc]
  rw [hshape]
  have hscheme : splitScheme (sch ++ (':' :: '/' :: '/' :: (n ++ (p ++ qpart)))) =
      (sch, '/' :: '/' :: (n ++ (p ++ qpart))) := by
    rcases hs with hs | hs <;> subst hs
    · exact splitScheme_http _
    · exact splitScheme_https _
  have htail : (p ++ qpart).takeWhile (fun c => !netlocDelim c) = [] := by
    rcases hp0 with hp0 | ⟨t, hp0⟩
    · subst hp0
      rw [List.nil_append, hqpart]
      split
      · exact takeWhile_head_false _ _ _ (by simp [netlocDelim])
      · rfl
    · subst hp0
      exact takeWhile_head_false _ _ _ (by simp [netlocDelim])
  have htail2 : (p ++ qpart).dropWhile (fun c => !netlocDelim c) = p ++ qpart := by
    rcases hp0 with hp0 | ⟨t, hp0⟩
    · subst hp0
      rw [List.nil_append, hqpart]
      split
      · exact dropWhile_head_false _ _ _ (by simp [netlocDelim])
      · rfl
    · subst hp0
      exact dropWhile_head_false _ _ _ (by simp [netlocDelim])
  have hnall : ∀ c ∈ n, (fun c => !netlocDelim c) c = true := by
    intro c hc
    simp [hn c hc]
  have hnet : splitNetloc ('/' :: '/' :: (n ++ (p ++ qpart))) = (n, p ++ qpart) := by
    rw [splitNetloc_slashes, takeWhile_append_all _ _ _ hnall, htail,
      dropWhile_append_all _ _ _ hnall, htail2, List.append_nil]
  have hnohash : '#' ∉ p ++ qpart := by
    intro hm
    rcases List.mem_append.mp hm with h1 | h2
    · exact hph h1
    · rw [hqpart] at h2
      revert h2
      split
      · intro h2
        rcases List.mem_cons.mp h2 with h3 | h4
        · exact absurd h3 (by decide)
        · exact hqh h4
      · intro h2
        simp at h2
  have hfrag : splitFirst '#' (p ++ qpart) = (p ++ qpart, []) :=
    splitFirst_not_mem '#' _ hnohash
  have hquery : splitFirst '?' (p ++ qpart) = (p, q) := by
    rw [hqpart]
    by_cases hq : q = []
    · rw [if_neg (by simpa using hq), List.append_nil]
      rw [splitFirst_not_mem '?' p hpq, hq]
    · rw [if_pos (by simpa using hq)]
      exact splitFirst_append '?' p q hpq
  have hcontains : p.contains ';' = false := by
    simpa using hps
  unfold parseUrlL
  rw [hscheme]
  dsimp only
  rw [hnet]
  dsimp only
  rw [hfrag]
  dsimp only
  rw [hquery]
  dsimp only
  rw [hcontains, Bool.and_false]
  rfl

theorem mem_pathNorm (p : List Char) : ∀ c ∈ pathNorm p, c ∈ p := by
  unfold pathNorm
  split
  next h =>
    intro c hc
    rw [h]
    exact hc
  next => exact mem_rstripAll '/' p

/-- Structure of the components `urlparse` extracts from a URL with an
authority: the netloc is delimiter-free, the path is empty or
slash-initial and contains neither `?` nor `#`, and the query contains
no `#`. -/
theorem parse_components (l : List Char) (h : hasAuthorityL l = true) :
    (∀ c ∈ (parseUrlL l).netloc, netlocDelim c = false) ∧
    ((parseUrlL l).path = [] ∨ ∃ t, (parseUrlL l).path = '/' :: t) ∧
    '?' ∉ (parseUrlL l).path ∧ '#' ∉ (parseUrlL l).path ∧
    '#' ∉ (parseUrlL l).query := by
  obtain ⟨rest, hrest⟩ := hasAuthority_shape l h
  have hparse : parseUrlL l =
      ⟨(splitScheme l).1,
       rest.takeWhile (fun c => !netlocDelim c),
       (if usesParams.contains (splitScheme l).1 &&
            ((splitFirst '?' (splitFirst '#'
              (rest.dropWhile (fun c => !netlocDelim c))).1).1).contains ';'
        then splitParamsPy (splitFirst '?' (splitFirst '#'
              (rest.dropWhile (fun c => !netlocDelim c))).1).1
        else ((splitFirst '?' (splitFirst '#'
              (rest.dropWhile (fun c => !netlocDelim c))).1).1, [])).1,
       (if usesParams.contains (splitScheme l).1 &&
            ((splitFirst '?' (splitFirst '#'
              (rest.dropWhile (fun c => !netlocDelim c))).1).1).contains ';'
        then splitParamsPy (splitFirst '?' (splitFirst '#'
              (rest.dropWhile (fun c => !netlocDelim c))).1).1
        else ((splitFirst '?' (splitFirst '#'
              (rest.dropWhile (fun c => !netlocDelim c))).1).1, [])).2,
       (splitFirst '?' (splitFirst '#'
          (rest.dropWhile (fun c => !netlocDelim c))).1).2,
       (splitFirst '#' (rest.dropWhile (fun c => !netlocDelim c))).2⟩ := by
    unfold parseUrlL
    dsimp only
    rw [hrest, splitNetloc_slashes]
  set R2 := rest.dropWhile (fun c => !netlocDelim c) with hR2
  set F1 := (splitFirst '#' R2).1 with hF1
  set path0 := (splitFirst '?' F1).1 with hpath0
  have hph0 : '#' ∉ path0 := by
    intro hm
    exact not_mem_splitFirst_fst '#' R2 (mem_splitFirst_fst '?' F1 '#' hm)
  have hpq0 : '?' ∉ path0 := not_mem_splitFirst_fst '?' F1
  have hq0 : '#' ∉ (splitFirst '?' F1).2 := by
    intro hm
    exact not_mem_splitFirst_fst '#' R2 (mem_splitFirst_snd '?' F1 '#' hm)
  have hshape0 : path0 = [] ∨ ∃ t, path0 = '/' :: t := by
    rcases dropWhile_shape (fun c => !netlocDelim c) rest with hr | ⟨c, t, hr, hc⟩
    · rw [hpath0, hF1, hR2, hr]
      left
      rfl
    · have hdel : netlocDelim c = true := by simpa using hc
      have : c = '/' ∨ c = '?' ∨ c = '#' := by
        revert hdel
        unfold netlocDelim
        simp
        tauto
      rcases this with hc1 | hc1 | hc1 <;> subst hc1 <;> rw [hpath0, hF1, hR2, hr]
      · rcases splitFirst_fst_head '#' '/' t with hx | ⟨t2, hx⟩
        · rw [hx]
          left
          rfl
        · rw [hx]
          rcases splitFirst_fst_head '?' '/' t2 with hy | ⟨t3, hy⟩
          · rw [hy]
            left
            rfl
          · rw [hy]
            right
            exact ⟨t3, rfl⟩
      · rcases splitFirst_fst_head '#' '?' t with hx | ⟨t2, hx⟩
        · rw [hx]
          left
          rfl
        · rw [hx]
          left
          simp [splitFirst]
      · left
        simp [splitFirst]
  set pathF := (if usesParams.contains (splitScheme l).1 && path0.contains ';'
                then splitParamsPy path0 else (path0, [])).1
    with hpathF
  have hsub : ∀ c ∈ pathF, c ∈ path0 := by
    rw [hpathF]
    split
    · exact mem_splitParamsPy_fst path0
    · intro c hc
      exact hc
  have hshapeF : pathF = [] ∨ ∃ t, pathF = '/' :: t := by
    rcases hshape0 with h0 | ⟨t, h0⟩
    · rw [hpathF, h0]
      left
      split <;> rfl
    · rw [hpathF, h0]
      split
      · exact splitParamsPy_fst_head '/' t
      · exact Or.inr ⟨t, rfl⟩
  rw [hparse]
  refine ⟨?_, hshapeF, ?_, ?_, hq0⟩
  · intro c hc
    have := List.mem_takeWhile_imp hc
    simpa using this
  · exact fun hm => hpq0 (hsub _ hm)
  · exact fun hm => hph0 (hsub _ hm)

/-- C6 (amended): the cache canonicalizer is idempotent on every URL with
an authority component whose parsed path contains no `;` (without an
authority the host text sits in the path and is not lowercased; a `;` in
the path can be re-split as params on the second pass), and on such URLs
it defaults the scheme to https when absent, lowercases the host, strips
trailing slashes from the path (root `/` kept) and preserves the query. -/
theorem C6_canonicalize_idempotent (u : String)
    (h1 : hasAuthorityL u.data = true)
    (h2 : ';' ∉ (parseUrl u).path) :
    normalize_url_for_cache (normalize_url_for_cache u) = normalize_url_for_cache u ∧
    ((parseUrl u).scheme = [] →
      (parseUrl (normalize_url_for_cache u)).scheme = "https".data) ∧
    (parseUrl (normalize_url_for_cache u)).netloc = lowerL (parseUrl u).netloc ∧
    (parseUrl (normalize_url_for_cache u)).path = pathNorm (parseUrl u).path ∧
    (parseUrl (normalize_url_for_cache u)).query = (parseUrl u).query := by
  obtain ⟨hnetF, hpathShape, hpq, hph, hqh⟩ := parse_components u.data h1
  set P := parseUrl u with hP
  have hPL : parseUrlL u.data = P := rfl
  rw [hPL] at hnetF hpathShape hpq hph hqh
  set scheme0 := if P.scheme = [] then "https".data else lowerL P.scheme with hs0
  set schemeN := if scheme0 = "http".data ∨ scheme0 = "https".data
                 then scheme0 else "https".data with hsN
  have hsmem : schemeN = "http".data ∨ schemeN = "https".data := by
    by_cases hd : scheme0 = "http".data ∨ scheme0 = "https".data
    · rw [hsN, if_pos hd]
      exact hd
    · rw [hsN, if_neg hd]
      right
      rfl
  have hne : u.data ≠ [] := by
    intro hnil
    rw [hnil] at h1
    exact absurd h1 (by decide)
  have hnorm : normalize_url_for_cache u =
      ⟨schemeN ++ "://".data ++ lowerL P.netloc ++ pathNorm P.path ++
        (if P.query ≠ [] then '?' :: P.query else [])⟩ := by
    unfold normalize_url_for_cache normalizeUrlForCacheL
    rw [if_neg hne]
    rfl
  have hnetN : ∀ c ∈ lowerL P.netloc, netlocDelim c = false := by
    intro c hc
    obtain ⟨c0, hc0, he⟩ := List.mem_map.mp hc
    rw [← he, netlocDelim_lowerChar]
    exact hnetF c0 hc0
  have hpathN_shape : pathNorm P.path = [] ∨ ∃ t, pathNorm P.path = '/' :: t := by
    rcases hpathShape with hp | ⟨t, hp⟩
    · left
      rw [hp]
      rfl
    · rw [hp]
      unfold pathNorm
      split
      · exact Or.inr ⟨[], rfl⟩
      · exact rstripAll_head '/' '/' t
  have hpqN : '?' ∉ pathNorm P.path := fun hm => hpq (mem_pathNorm _ _ hm)
  have hphN : '#' ∉ pathNorm P.path := fun hm => hph (mem_pathNorm _ _ hm)
  have hpsN : ';' ∉ pathNorm P.path := fun hm => h2 (mem_pathNorm _ _ hm)
  have hrec := parseUrlL_reconstruct schemeN (lowerL P.netloc) (pathNorm P.path)
    P.query hsmem hnetN hpathN_shape hpqN hphN hpsN hqh
  have hparseN : parseUrl (normalize_url_for_cache u) =
      ⟨schemeN, lowerL P.netloc, pathNorm P.path, [], P.query, []⟩ := by
    rw [hnorm]
    exact hrec
  refine ⟨?_, ?_, ?_, ?_, ?_⟩
  · rw [hnorm]
    have hLne : schemeN ++ "://".data ++ lowerL P.netloc ++ pathNorm P.path ++
        (if P.query ≠ [] then '?' :: P.query else []) ≠ [] := by
      rcases hsmem with h | h <;> rw [h] <;> simp
    unfold normalize_url_for_cache normalizeUrlForCacheL
    rw [if_neg (show ¬ (String.data ⟨schemeN ++ "://".data ++ lowerL P.netloc ++
      pathNorm P.path ++ (if P.query ≠ [] then '?' :: P.query else [])⟩ = [])
      from hLne)]
    have hrec2 : parseUrlL (String.data ⟨schemeN ++ "://".data ++ lowerL P.netloc ++
        pathNorm P.path ++ (if P.query ≠ [] then '?' :: P.query else [])⟩) =
        ⟨schemeN, lowerL P.netloc, pathNorm P.path, [], P.query, []⟩ := hrec
    rw [hrec2]
    dsimp only
    have e1 : (if schemeN = [] then "https".data else lowerL schemeN) = schemeN := by
      rcases hsmem with h | h <;> rw [h] <;> rfl
    rw [e1, if_pos hsmem, lowerL_idem, pathNorm_idem]
  · intro hnil
    rw [hparseN]
    show schemeN = "https".data
    have h0 : scheme0 = "https".data := by rw [hs0, if_pos hnil]
    rw [hsN, h0, if_pos (Or.inr rfl)]
  · rw [hparseN]
  · rw [hparseN]
  · rw [hparseN]

/-- C6 witness: the theorem applied to a URL with authority, uppercase
host and path, trailing slash and a query string. -/
theorem C6_canonicalize_idempotent_witness :
    normalize_url_for_cache (normalize_url_for_cache
      "https://Example.COM/Path/?Q=x") =
      normalize_url_for_cache "https://Example.COM/Path/?Q=x" :=
  (C6_canonicalize_idempotent "https://Example.COM/Path/?Q=x"
    (by decide) (by decide)).1

/-- C6 counterexample: the canonicalizer is not idempotent in general.
On `"A.com"` (no authority: the host text sits in the path, which is not
lowercased on the first pass but becomes the host on the second); on
`"https://a/b;x/"` (stripping the trailing slash exposes `;x` as the last
path segment, which the second pass splits off as params); and on
`"foo://a/b;x"` (scheme `foo` is not in `uses_params`, so the first pass
keeps `;x` in the path, while the second pass - now on an `https` URL -
splits it off). So the claim's unrestricted idempotence is false. -/
theorem C6_not_idempotent_in_general :
    normalize_url_for_cache (normalize_url_for_cache "A.com") ≠
      normalize_url_for_cache "A.com" ∧
    normalize_url_for_cache "A.com" = "https://A.com" ∧
    normalize_url_for_cache "https://A.com" = "https://a.com" ∧
    normalize_url_for_cache (normalize_url_for_cache "https://a/b;x/") ≠
      normalize_url_for_cache "https://a/b;x/" ∧
    normalize_url_for_cache (normalize_url_for_cache "foo://a/b;x") ≠
      normalize_url_for_cache "foo://a/b;x" ∧
    normalize_url_for_cache "foo://a/b;x" = "https://a/b;x" ∧
    normalize_url_for_cache "https://a/b;x" = "https://a/b" := by
  decide

theorem botErrCase_shape (env : ScrapeEnv) (cfg : ScraperConfig)
    (bd : Option String) (url : String) (e : NetErr) (resp0 : Response)
    (origFinal : String) :
    botErrCase env cfg bd url e resp0 origFinal = .retNone ∨
    (∃ r2 u, botErrCase env cfg bd url e resp0 origFinal = .cont r2 origFinal u) ∨
    (∃ r2 f2 u, botErrCase env cfg bd url e resp0 origFinal = .cont r2 f2 u ∧
      is_external_redirect bd f2 = false) := by
  unfold botErrCase
  cases e <;> try exact Or.inr (Or.inl ⟨_, _, rfl⟩)
  case ssl msg =>
    dsimp only
    split
    · exact Or.inl rfl
    · split
      · rcases hn : env.net true true false url with r3 | e2 <;> simp only [hn]
        · cases hrs : raiseForStatus r3 <;> simp only [hrs]
          · split
            next hx => exact Or.inl rfl
            next hx =>
              exact Or.inr (Or.inr ⟨_, _, _, rfl, by simpa using hx⟩)
          · exact Or.inr (Or.inl ⟨_, _, rfl⟩)
        · exact Or.inr (Or.inl ⟨_, _, rfl⟩)
      · exact Or.inr (Or.inl ⟨_, _, rfl⟩)
  case http respInfo m =>
    dsimp only
    rcases respInfo with _ | ⟨u0, s0⟩
    · exact Or.inr (Or.inl ⟨_, _, rfl⟩)
    · dsimp only
      split
      · exact Or.inl rfl
      · exact Or.inr (Or.inl ⟨_, _, rfl⟩)

theorem botRetry_shape (env : ScrapeEnv) (cfg : ScraperConfig)
    (bd : Option String) (url : String) (r : Response) (f : String) :
    botRetry env cfg bd url r f = .retNone ∨
    (∃ r2 u, botRetry env cfg bd url r f = .cont r2 f u) ∨
    (∃ r2 f2 u, botRetry env cfg bd url r f = .cont r2 f2 u ∧
      is_external_redirect bd f2 = false) := by
  unfold botRetry
  rcases hn : env.net true true cfg.verify_ssl url with r2 | e <;> simp only [hn]
  · cases hrs : raiseForStatus r2 <;> simp only [hrs]
    · split
      next hx => exact Or.inl rfl
      next hx => exact Or.inr (Or.inr ⟨_, _, _, rfl, by simpa using hx⟩)
    · exact botErrCase_shape env cfg bd url _ r2 f
  · exact botErrCase_shape env cfg bd url e r f

theorem buildPage_domain (env : ScrapeEnv) (bd : Option String) (url : String)
    (r : Response) (f : String) (st : ScrapeState) (add : Bool) (pg : Page)
    (h : (buildPage env bd url r f st add).1 = some pg) :
    pg.url = f ∧
    ∀ p ∈ (buildPage env bd url r f st add).2.pages, p ∈ st.pages ∨ p = pg := by
  unfold buildPage at h ⊢
  dsimp only at h ⊢
  injection h with h'
  subst h'
  refine ⟨rfl, ?_⟩
  split
  · intro p hp
    rcases List.mem_append.mp hp with h1 | h2
    · exact Or.inl h1
    · exact Or.inr (by simpa using h2)
  · exact fun p hp => Or.inl hp

theorem is_external_redirect_false (b : String) (hb : b ≠ "") (f : String)
    (h : is_external_redirect (some b) f = false) : netlocOf f = b := by
  simpa [is_external_redirect, hb] using h

theorem afterResponse_domain (env : ScrapeEnv) (cfg : ScraperConfig)
    (b : String) (url : String) (st : ScrapeState) (add : Bool) (r : Response)
    (f : String) (ucs : Bool) (pg : Page) (hb : b ≠ "")
    (h : (afterResponse env cfg (some b) url st add r f ucs).1 = some pg) :
    netlocOf pg.url = b ∧
    ∀ p ∈ (afterResponse env cfg (some b) url st add r f ucs).2.pages,
      p ∈ st.pages ∨ netlocOf p.url = b := by
  have hfin : ∀ (r2 : Response) (f2 : String), netlocOf f2 = b →
      (buildPage env (some b) url r2 f2 st add).1 = some pg →
      netlocOf pg.url = b ∧
      ∀ p ∈ (buildPage env (some b) url r2 f2 st add).2.pages,
        p ∈ st.pages ∨ netlocOf p.url = b := by
    intro r2 f2 hf2 hbp
    obtain ⟨hpu, hpp⟩ := buildPage_domain env (some b) url r2 f2 st add pg hbp
    refine ⟨by rw [hpu]; exact hf2, fun p hp => ?_⟩
    rcases hpp p hp with h1 | h2
    · exact Or.inl h1
    · right
      rw [h2, hpu]
      exact hf2
  unfold afterResponse at h ⊢
  dsimp only at h ⊢
  by_cases hc1 : (truthyStr (some b) && is_external_redirect (some b) f) = true
  · rw [if_pos hc1] at h
    exact absurd h (by simp)
  · rw [if_neg hc1] at h ⊢
    have hf : netlocOf f = b := by
      apply is_external_redirect_false b hb
      have ht : truthyStr (some b) = true := by simp [truthyStr, hb]
      simpa [ht] using hc1
    by_cases hc2 : (env.is_bot_protection_page r.text && !ucs) = true
    · rw [if_pos hc2] at h ⊢
      by_cases hc3 : cfg.hasCloudscraper = true
      · rw [if_pos hc3] at h ⊢
        rcases hbr : botRetry env cfg (some b) url r f with _ | ⟨r2, f2, u⟩ <;>
          simp only [hbr] at h ⊢
        · exact absurd h (by simp)
        · have hf2 : netlocOf f2 = b := by
            rcases botRetry_shape env cfg (some b) url r f with hs | ⟨r2x, ux, hs⟩ |
              ⟨r2x, f2x, ux, hs, hx⟩
            · rw [hbr] at hs
              exact absurd hs (by simp)
            · rw [hbr] at hs
              injection hs with h1 h2 h3
              rw [h2]
              exact hf
            · rw [hbr] at hs
              injection hs with h1 h2 h3
              rw [h2]
              exact is_external_redirect_false b hb f2x hx
          exact hfin r2 f2 hf2 h
      · rw [if_neg hc3] at h ⊢
        exact hfin r f hf h
    · rw [if_neg hc2] at h ⊢
      exact hfin r f hf h

theorem outerHandler_domain (env : ScrapeEnv) (cfg : ScraperConfig)
    (b : String) (url : String) (st : ScrapeState) (add : Bool) (e : NetErr)
    (pg : Page) (hb : b ≠ "")
    (h : (outerHandler env cfg (some b) url st add e).1 = some pg) :
    netlocOf pg.url = b ∧
    ∀ p ∈ (outerHandler env cfg (some b) url st add e).2.pages,
      p ∈ st.pages ∨ netlocOf p.url = b := by
  have hfin : ∀ (r2 : Response) (f2 : String), netlocOf f2 = b →
      (buildPage env (some b) url r2 f2 st add).1 = some pg →
      netlocOf pg.url = b ∧
      ∀ p ∈ (buildPage env (some b) url r2 f2 st add).2.pages,
        p ∈ st.pages ∨ netlocOf p.url = b := by
    intro r2 f2 hf2 hbp
    obtain ⟨hpu, hpp⟩ := buildPage_domain env (some b) url r2 f2 st add pg hbp
    refine ⟨by rw [hpu]; exact hf2, fun p hp => ?_⟩
    rcases hpp p hp with h1 | h2
    · exact Or.inl h1
    · right
      rw [h2, hpu]
      exact hf2
  unfold outerHandler at h ⊢
  cases e
  case http resp m => simp at h
  case conn m => simp at h
  case timeout m => simp at h
  case tooManyRedirects m => simp at h
  case invalidUrl => simp at h
  case missingSchema => simp at h
  case invalidSchema => simp at h
  case chunked m => simp at h
  case contentDecoding m => simp at h
  case unicode => simp at h
  case reqOther m => simp at h
  case other m => simp at h
  case ssl msg =>
    dsimp only at h ⊢
    by_cases hc1 : (truthyStr (some b) && !(inStr ((some b : Option String).getD "") msg)) = true
    · rw [if_pos hc1] at h
      exact absurd h (by simp)
    · rw [if_neg hc1] at h ⊢
      by_cases hc2 : (cfg.ssl_retry_unverified && handshakeIn msg) = true
      · rw [if_pos hc2] at h ⊢
        rcases hn : env.net false true false url with r | e2 <;> simp only [hn] at h ⊢
        · cases hrs : raiseForStatus r <;> simp only [hrs] at h ⊢
          · by_cases hc3 :
              (truthyStr (some b) && is_external_redirect (some b) r.url) = true
            · rw [if_pos hc3] at h
              exact absurd h (by simp)
            · rw [if_neg hc3] at h ⊢
              have hf : netlocOf r.url = b := by
                apply is_external_redirect_false b hb
                have ht : truthyStr (some b) = true := by simp [truthyStr, hb]
                simpa [ht] using hc3
              exact hfin r r.url hf h
          · exact absurd h (by simp)
        · exact absurd h (by simp)
      · rw [if_neg hc2] at h
        exact absurd h (by simp)

theorem scrapePageCore_domain (env : ScrapeEnv) (cfg : ScraperConfig)
    (url : String) (ucf add : Bool) (b : String) (st : ScrapeState) (pg : Page)
    (hb : b ≠ "")
    (h : (scrapePageCore env cfg url ucf add (some b) st).1 = some pg) :
    netlocOf pg.url = b ∧
    ∀ p ∈ (scrapePageCore env cfg url ucf add (some b) st).2.pages,
      p ∈ st.pages ∨ netlocOf p.url = b := by
  unfold scrapePageCore at h ⊢
  cases hcs : (if ucf && cfg.hasCloudscraper
               then csFirstBlock env cfg (some b) url else CsOut.fallThrough) <;>
    simp only [hcs] at h ⊢
  case retNone => exact absurd h (by simp)
  case got r => exact afterResponse_domain env cfg b url st add r r.url true pg hb h
  case fallThrough =>
    cases hr : regularBlock env cfg (some b) url <;> simp only [hr] at h ⊢
    case retNone => exact absurd h (by simp)
    case got r => exact afterResponse_domain env cfg b url st add r r.url false pg hb h
    case raised e => exact outerHandler_domain env cfg b url st add e pg hb h

/-- C1: whenever `scrape_page` is called with a non-empty base domain and
returns a page, that page's final post-redirect URL has host equal to the
base domain, and no page with a different host is ever appended to
`scraped_pages` - including along the SSL-fallback, bot-protection-retry
and last-resort paths, which all re-check the final URL's host. -/
theorem C1_scrape_page_domain (env : ScrapeEnv) (cfg : ScraperConfig)
    (url : String) (ucf add : Bool) (b : String) (st : ScrapeState) (pg : Page)
    (st2 : ScrapeState) (hb : b ≠ "")
    (h : scrape_page env cfg url ucf add (some b) st = (some pg, st2)) :
    netlocOf pg.url = b ∧ ∀ p ∈ st2.pages, p ∈ st.pages ∨ netlocOf p.url = b := by
  by_cases h1 : is_valid_url url
  · by_cases h2 : url ∈ st.visited
    · have hsp : scrape_page env cfg url ucf add (some b) st = (none, st) := by
        unfold scrape_page
        rw [if_neg (by simpa using h1), if_pos h2]
      rw [hsp] at h
      exact absurd (congrArg Prod.fst h) (by simp)
    · have hw : scrape_page env cfg url ucf add (some b) st =
          ((scrapePageCore env cfg url ucf add (some b) st).1,
           { (scrapePageCore env cfg url ucf add (some b) st).2 with
               trace := (scrapePageCore env cfg url ucf add (some b) st).2.trace ++
                 [(url, (scrapePageCore env cfg url ucf add (some b) st).1.isSome)] }) := by
        unfold scrape_page
        rw [if_neg (by simpa using h1), if_neg h2]
      rw [hw] at h
      have hfst : (scrapePageCore env cfg url ucf add (some b) st).1 = some pg :=
        congrArg Prod.fst h
      have hpairs := congrArg Prod.snd h
      have hsnd : st2.pages = (scrapePageCore env cfg url ucf add (some b) st).2.pages :=
        (congrArg ScrapeState.pages hpairs).symm
      obtain ⟨hnet, hpp⟩ := scrapePageCore_domain env cfg url ucf add b st pg hb hfst
      exact ⟨hnet, fun p hp => hpp p (hsnd ▸ hp)⟩
  · have hsp : scrape_page env cfg url ucf add (some b) st = (none, st) := by
      unfold scrape_page
      rw [if_pos (by simpa using h1)]
    rw [hsp] at h
    exact absurd (congrArg Prod.fst h) (by simp)

/-- C1 witness: the theorem applied to the concrete crawl environment,
where fetching the seed URL returns a page on host `s.com`. -/
theorem C1_scrape_page_domain_witness : netlocOf pageS.url = "s.com" :=
  (C1_scrape_page_domain envA cfgA urlS false true "s.com" ⟨[], [], []⟩ pageS
    ⟨[urlS], [pageS], [(urlS, true)]⟩ (by decide) (by decide)).1

/-- C9 counterexample: with the configured term `''` and one page whose
text is `''`, the page contains an occurrence of a configured term (the
empty pattern matches empty text) but is skipped by `search_pages`, so
`pages_with_terms` is 0 while the number of pages containing a term is
1 - the claimed equality fails as stated. -/
theorem C9_empty_term_empty_text_mismatch :
    (aggregate_results (search_pages ⟨[""], 5⟩ [⟨"u", "", some "school"⟩])).lookup
      "pages_with_terms" = some (.num 0) ∧
    ([⟨"u", "", some "school"⟩] : List SPage).countP
      (fun p => pageHasMatch ⟨[""], 5⟩ p) = 1 := by
  decide

end SchoolWordSearch
